import Mathlib

/-!
The level reader `ReadLevelDesc` of nikman (src/include/level.h)

A shallow embedding of the level-file reader and a verification of its
specification.

Modelling conventions.

* The opened file is the list of its bytes, as the stream delivers them; a byte is
  represented by the character with the same code (the code only ever compares
  bytes with ASCII literals). `is.get()` yields `none` at end of input, like `EOF`,
  which is equal to no literal. `filesize` is the length of the list.
* `int` and `size_t` values are natural numbers. Every such value the code computes
  is a counter bounded by the file size, so no arithmetic wraps for files below
  2 GiB; the one subtraction on `size_t` (`filesize / (w*4+2) - 1`) is shown never
  to go below zero (`firstLine_quotient_pos`), and `h - 1` and `w - 1` are only
  computed after the test `w < 1 || h < 1`. The `int h` of line 76 with its machine
  arithmetic is `machineHeight`: below 2 GiB it passes the test `h < 1` exactly when
  the natural number does and then has the same value (`machineHeight_eq`); on larger
  files the conversion to `int` can drop high bits (`machineHeight_large`), so the
  statements about bytes appended to a text are made for files below `2^31` bytes.
* `std::vector::emplace_back` appends at the end of a list.
* The local `LevelDesc level` starts with empty vectors, a value-initialised
  `player_pos` and indeterminate `h` and `w`, modelled as `none`.
* `INVALID_FORMAT` leaves the function at once with the level built so far.
* A `for` loop that counts `x` up from a start value is a recursion on the number of
  iterations left; the `while (true)` loop of the first line has a bound of
  `filesize + 1` iterations, which it never reaches (`ReadLevelDesc_cases`).
-/

namespace Nikman

/-- The structure `LevelDesc` of level.h. -/
structure LevelDesc where
  h : Option Nat
  w : Option Nat
  ver_walls : List (Nat × Nat)
  hor_walls : List (Nat × Nat)
  player_pos : Nat × Nat
  hammers : List (Nat × Nat)
  pumpkin_home : List (Nat × Nat)
  deriving DecidableEq

/-- The default-initialised local `LevelDesc level;` (line 27). -/
def LevelDesc.init : LevelDesc :=
  { h := none, w := none, ver_walls := [], hor_walls := [], player_pos := (0, 0),
    hammers := [], pumpkin_home := [] }

/-- Result of running a piece of the reader on the level under construction and the
unread input: it goes on with a value, or leaves through `INVALID_FORMAT`, or the
bound put on the unbounded first-line loop is used up. -/
inductive Res (α : Type) where
  | ok (a : α) (level : LevelDesc) (is : List Char)
  | invalid (level : LevelDesc)
  | outOfFuel
  deriving DecidableEq

/-- A piece of the reader: a function of the level built so far and the unread input. -/
def P (α : Type) : Type := LevelDesc → List Char → Res α

/-- Sequencing of two pieces of the reader. -/
def P.bind {α β : Type} (p : P α) (f : α → P β) : P β := fun level is =>
  match p level is with
  | .ok a level1 is1 => f a level1 is1
  | .invalid level1 => .invalid level1
  | .outOfFuel => .outOfFuel

/-- A piece that reads nothing and yields `a`. -/
def P.pure {α : Type} (a : α) : P α := fun level is => .ok a level is

instance : Monad P where
  pure := P.pure
  bind := P.bind

/-- The macro `INVALID_FORMAT`: report and `return level`. -/
def INVALID_FORMAT {α : Type} : P α := fun level _ => .invalid level

/-- The call `is.get()`: the next byte, or end of input (which stays end of input). -/
def get : P (Option Char) := fun level is =>
  match is with
  | [] => .ok none level []
  | c :: rest => .ok (some c) level rest

/-- The macro `EXPECT_CHAR(c)`: `if (is.get() != (c)) INVALID_FORMAT`. -/
def EXPECT_CHAR (c : Char) : P Unit := do
  let d ← get
  (if d ≠ some c then INVALID_FORMAT else pure ())

/-- Change the level under construction. -/
def modifyLevel (f : LevelDesc → LevelDesc) : P Unit := fun level is => .ok () (f level) is

/-- The lambda `UseLetterLambda` (lines 29-43). -/
def UseLetterLambda (c : Option Char) (x y : Nat) : P Bool :=
  if c = some 'n' then do
    modifyLevel (fun l => { l with player_pos := (x, y) })
    pure true
  else if c = some 'h' then do
    modifyLevel (fun l => { l with hammers := l.hammers ++ [(x, y)] })
    pure true
  else if c = some 'e' then do
    modifyLevel (fun l => { l with pumpkin_home := l.pumpkin_home ++ [(x, y)] })
    pure true
  else if c = some ' ' then
    pure true
  else
    pure false

/-- The loop `while (true)` reading the first line (lines 59-74), with a bound on the
number of iterations; `w` is the count so far and the value at `break` is returned. -/
def firstLine : Nat → Nat → P Nat
  | 0, _ => fun _ _ => .outOfFuel
  | fuel + 1, w => do
    EXPECT_CHAR '+'
    let c ← get
    if c = some '-' then do
      EXPECT_CHAR '-'
      EXPECT_CHAR '-'
      firstLine fuel (w + 1)
    else if c = some '\n' then
      pure w
    else
      INVALID_FORMAT

/-- One iteration of `for (x = 0; x < w - 1; ++x)` in a cell row (lines 120-132 and
169-181). -/
def cellBody (x y : Nat) : P Unit := do
  let c ← get
  let used ← UseLetterLambda c x y
  (if !used then INVALID_FORMAT else pure ())
  EXPECT_CHAR ' '
  let c ← get
  (if c = some '|' then
    modifyLevel (fun l => { l with ver_walls := l.ver_walls ++ [(x + 1, y)] })
  else if c ≠ some ' ' then
    INVALID_FORMAT
  else
    pure ())
  EXPECT_CHAR ' '

/-- The loop `for (x = 0; x < w - 1; ++x)` of a cell row: `n` iterations are left and
the next one is for `x`; the value of `x` after the loop is returned. -/
def cellLoop (y : Nat) : Nat → Nat → P Nat
  | 0, x => pure x
  | n + 1, x => do
    cellBody x y
    cellLoop y n (x + 1)

/-- A cell row (lines 117-140, and again lines 166-189). -/
def cellRow (w y : Nat) : P Unit := do
  EXPECT_CHAR '|'
  EXPECT_CHAR ' '
  let x ← cellLoop y (w - 1) 0
  let c ← get
  let used ← UseLetterLambda c x y
  (if !used then INVALID_FORMAT else pure ())
  EXPECT_CHAR ' '
  EXPECT_CHAR '|'
  EXPECT_CHAR '\n'

/-- One iteration of `for (x = 0; x < w; ++x)` in a wall row (lines 144-159). -/
def wallBody (x y : Nat) : P Unit := do
  EXPECT_CHAR '+'
  let c ← get
  if c = some ' ' then do
    EXPECT_CHAR ' '
    EXPECT_CHAR ' '
  else if c = some '-' then do
    EXPECT_CHAR '-'
    EXPECT_CHAR '-'
    modifyLevel (fun l => { l with hor_walls := l.hor_walls ++ [(x, y)] })
  else
    INVALID_FORMAT

/-- The loop `for (x = 0; x < w; ++x)` of a wall row: `n` iterations are left. -/
def wallLoop (y : Nat) : Nat → Nat → P Unit
  | 0, _ => pure ()
  | n + 1, x => do
    wallBody x y
    wallLoop y n (x + 1)

/-- A wall row (lines 142-163). -/
def wallRow (w y : Nat) : P Unit := do
  wallLoop y w 0
  EXPECT_CHAR '+'
  EXPECT_CHAR '\n'

/-- The loop `for (y = h - 1; y > 0; --y)` (lines 115-164), started at `y`; the value
of `y` after the loop is returned. -/
def rowLoop (w : Nat) : Nat → P Nat
  | 0 => pure 0
  | y + 1 => do
    cellRow w (y + 1)
    wallRow w (y + 1)
    rowLoop w y

/-- The loop reading the end line (lines 192-197): `n` iterations are left. -/
def endLoop : Nat → P Unit
  | 0 => pure ()
  | n + 1 => do
    EXPECT_CHAR '+'
    EXPECT_CHAR '-'
    EXPECT_CHAR '-'
    EXPECT_CHAR '-'
    endLoop n

/-- The end line (lines 191-199); the newline after it is not read. -/
def endLine (w : Nat) : P Unit := do
  endLoop w
  EXPECT_CHAR '+'

/-- The loop `for (x = 0; x < w; ++x)` adding the outer horizontal walls (lines 202-205). -/
def addHorLoop (h : Nat) : Nat → Nat → P Unit
  | 0, _ => pure ()
  | n + 1, x => do
    modifyLevel (fun l => { l with hor_walls := l.hor_walls ++ [(x, 0)] })
    modifyLevel (fun l => { l with hor_walls := l.hor_walls ++ [(x, h)] })
    addHorLoop h n (x + 1)

/-- The loop `for (y = 0; y < h; ++y)` adding the outer vertical walls (lines 206-209). -/
def addVerLoop (w : Nat) : Nat → Nat → P Unit
  | 0, _ => pure ()
  | n + 1, y => do
    modifyLevel (fun l => { l with ver_walls := l.ver_walls ++ [(0, y)] })
    modifyLevel (fun l => { l with ver_walls := l.ver_walls ++ [(w, y)] })
    addVerLoop w n (y + 1)

/-- The body of `ReadLevelDesc` once the file is open (lines 51-211); `filesize` is
the value of `is.tellg()` at the end of the file. -/
def readBody (filesize : Nat) : P Unit := do
  let w ← firstLine (filesize + 1) 0
  let h := (filesize / (w * 4 + 2) - 1) / 2
  if w < 1 ∨ h < 1 then
    INVALID_FORMAT
  else do
    modifyLevel (fun l => { l with h := some h })
    modifyLevel (fun l => { l with w := some w })
    let y ← rowLoop w (h - 1)
    cellRow w y
    endLine w
    addHorLoop h w 0
    addVerLoop w h 0

/-- What a call of `ReadLevelDesc` does: it returns the level at the end (line 211),
or reports an invalid format and returns the level built so far, or reports that the
file cannot be opened. -/
inductive Outcome where
  | returned (level : LevelDesc)
  | invalidFormat (level : LevelDesc)
  | cantOpen (level : LevelDesc)
  | outOfFuel
  deriving DecidableEq

/-- The function `ReadLevelDesc`; `file` is the content of the named file, `none` when
it cannot be opened. -/
def ReadLevelDesc (file : Option (List Char)) : Outcome :=
  match file with
  | none => .cantOpen LevelDesc.init
  | some bytes =>
    match readBody bytes.length LevelDesc.init bytes with
    | .ok _ level _ => .returned level
    | .invalid level => .invalidFormat level
    | .outOfFuel => .outOfFuel

/-! ## Level texts

A level drawing of `W` columns and `H` rows, and the text that draws it. Cell rows and
their columns are counted from the top left of the text, from 0. -/

/-- A level drawing: the marker in each cell, whether a `|` follows a cell in its cell
row, and whether `---` stands under a cell in the wall row printed after its cell row. -/
structure Grid where
  W : Nat
  H : Nat
  cell : Nat → Nat → Char
  vwall : Nat → Nat → Bool
  hwall : Nat → Nat → Bool

/-- The markers a cell may hold. -/
def isMarker (c : Char) : Prop := c = 'n' ∨ c = 'h' ∨ c = 'e' ∨ c = ' '

instance (c : Char) : Decidable (isMarker c) := by unfold isMarker; infer_instance

/-- A drawing of at least one column and one row, all of whose cells hold a marker. -/
def Grid.WellFormed (g : Grid) : Prop :=
  1 ≤ g.W ∧ 1 ≤ g.H ∧ ∀ r c, r < g.H → c < g.W → isMarker (g.cell r c)

instance (g : Grid) : Decidable g.WellFormed :=
  decidable_of_iff (1 ≤ g.W ∧ 1 ≤ g.H ∧ ∀ r < g.H, ∀ c < g.W, isMarker (g.cell r c))
    ⟨fun h => ⟨h.1, h.2.1, fun r c hr hc => h.2.2 r hr c hc⟩,
      fun h => ⟨h.1, h.2.1, fun r hr c hc => h.2.2 r c hr hc⟩⟩

/-- A border line of `W` segments `+---` and a closing `+`, without its newline. -/
def borderLine (W : Nat) : List Char :=
  (List.replicate W ['+', '-', '-', '-']).flatten ++ ['+']

/-- The four characters of a cell that is not the last of its row: marker, space, wall
choice, space. -/
def cellText (g : Grid) (r c : Nat) : List Char :=
  [g.cell r c, ' ', if g.vwall r c then '|' else ' ', ' ']

/-- Cell row `r`, without its newline. -/
def cellLine (g : Grid) (r : Nat) : List Char :=
  ['|', ' '] ++ (List.range (g.W - 1)).flatMap (cellText g r) ++ [g.cell r (g.W - 1), ' ', '|']

/-- The four characters of a wall row under a cell: `+---` or `+` and three spaces. -/
def wallText (g : Grid) (r c : Nat) : List Char :=
  '+' :: List.replicate 3 (if g.hwall r c then '-' else ' ')

/-- The wall row printed after cell row `r`, without its newline. -/
def wallLine (g : Grid) (r : Nat) : List Char :=
  (List.range g.W).flatMap (wallText g r) ++ ['+']

/-- A cell row and the wall row after it, with their newlines. -/
def rowPair (g : Grid) (r : Nat) : List Char :=
  cellLine g r ++ ['\n'] ++ wallLine g r ++ ['\n']

/-- The text of a drawing up to the closing `+` of its bottom border. -/
def renderBody (g : Grid) : List Char :=
  borderLine g.W ++ ['\n']
    ++ (List.range (g.H - 1)).flatMap (rowPair g)
    ++ cellLine g (g.H - 1) ++ ['\n']
    ++ borderLine g.W

/-- The level text of a drawing: every line is followed by a newline. -/
def render (g : Grid) : List Char := renderBody g ++ ['\n']

/-- The positions of the cells of cell row `r` that hold `ch`, from left to right; a
cell of cell row `r` has row index `H - 1 - r`. -/
def rowMarks (g : Grid) (ch : Char) (r : Nat) : List (Nat × Nat) :=
  ((List.range g.W).filter (fun c => g.cell r c = ch)).map (fun c => (c, g.H - 1 - r))

/-- The positions of the cells that hold `ch`, in reading order of the text. -/
def marks (g : Grid) (ch : Char) : List (Nat × Nat) :=
  (List.range g.H).flatMap (rowMarks g ch)

/-- The walls recorded for the `|` of cell row `r`. -/
def rowVer (g : Grid) (r : Nat) : List (Nat × Nat) :=
  ((List.range (g.W - 1)).filter (fun c => g.vwall r c)).map (fun c => (c + 1, g.H - 1 - r))

/-- The walls recorded for the `|` between cells, in reading order. -/
def innerVer (g : Grid) : List (Nat × Nat) :=
  (List.range g.H).flatMap (rowVer g)

/-- The walls recorded for the `---` of the wall row after cell row `r`. -/
def rowHor (g : Grid) (r : Nat) : List (Nat × Nat) :=
  ((List.range g.W).filter (fun c => g.hwall r c)).map (fun c => (c, g.H - 1 - r))

/-- The walls recorded for the `---` of the wall rows, in reading order. -/
def innerHor (g : Grid) : List (Nat × Nat) :=
  (List.range (g.H - 1)).flatMap (rowHor g)

/-- The outer horizontal walls, in the order they are added. -/
def outerHor (W H : Nat) : List (Nat × Nat) :=
  (List.range W).flatMap (fun x => [(x, 0), (x, H)])

/-- The outer vertical walls, in the order they are added. -/
def outerVer (W H : Nat) : List (Nat × Nat) :=
  (List.range H).flatMap (fun y => [(0, y), (W, y)])

/-- The level a drawing stands for. -/
def levelOf (g : Grid) : LevelDesc :=
  { h := some g.H
    w := some g.W
    ver_walls := innerVer g ++ outerVer g.W g.H
    hor_walls := innerHor g ++ outerHor g.W g.H
    player_pos := (marks g 'n').getLast?.getD (0, 0)
    hammers := marks g 'h'
    pumpkin_home := marks g 'e' }


/-- What `UseLetterLambda` does to the level for a marker. -/
def letterEffect (m : Char) (x y : Nat) (lv : LevelDesc) : LevelDesc :=
  if m = 'n' then { lv with player_pos := (x, y) }
  else if m = 'h' then { lv with hammers := lv.hammers ++ [(x, y)] }
  else if m = 'e' then { lv with pumpkin_home := lv.pumpkin_home ++ [(x, y)] }
  else lv

/-- What a stretch of the text adds to the level: the positions of its `n`, `h` and `e`
markers and the walls recorded for its `|` and `---`. -/
structure Delta where
  ns : List (Nat × Nat)
  hs : List (Nat × Nat)
  es : List (Nat × Nat)
  vs : List (Nat × Nat)
  hz : List (Nat × Nat)

/-- Nothing to add. -/
def Delta.empty : Delta := ⟨[], [], [], [], []⟩

/-- The additions of one stretch followed by those of the next. -/
def Delta.app (d e : Delta) : Delta :=
  ⟨d.ns ++ e.ns, d.hs ++ e.hs, d.es ++ e.es, d.vs ++ e.vs, d.hz ++ e.hz⟩

/-- The level after the additions: lists grow at the end, the player is the last `n`. -/
def Delta.apply (d : Delta) (lv : LevelDesc) : LevelDesc :=
  { lv with
    player_pos := d.ns.getLast?.getD lv.player_pos
    hammers := lv.hammers ++ d.hs
    pumpkin_home := lv.pumpkin_home ++ d.es
    ver_walls := lv.ver_walls ++ d.vs
    hor_walls := lv.hor_walls ++ d.hz }

/-- The positions, with row index `y`, of the cells of cell row `r` in columns `cols`
that hold `ch`. -/
def marksIn (g : Grid) (ch : Char) (r y : Nat) (cols : List Nat) : List (Nat × Nat) :=
  (cols.filter (fun c => g.cell r c = ch)).map (fun c => (c, y))

/-- The walls recorded for the `|` after the cells of cell row `r` in columns `cols`. -/
def versIn (g : Grid) (r y : Nat) (cols : List Nat) : List (Nat × Nat) :=
  (cols.filter (fun c => g.vwall r c)).map (fun c => (c + 1, y))

/-- The walls recorded for the `---` in columns `cols` of the wall row after cell row `r`. -/
def horsIn (g : Grid) (r y : Nat) (cols : List Nat) : List (Nat × Nat) :=
  (cols.filter (fun c => g.hwall r c)).map (fun c => (c, y))

/-- The additions of the markers of cell row `r` in columns `cols`. -/
def lettersDelta (g : Grid) (r y : Nat) (cols : List Nat) : Delta :=
  ⟨marksIn g 'n' r y cols, marksIn g 'h' r y cols, marksIn g 'e' r y cols, [], []⟩

/-- The additions of the cells of cell row `r` in columns `cols`, wall choices included. -/
def cellsDelta (g : Grid) (r y : Nat) (cols : List Nat) : Delta :=
  ⟨marksIn g 'n' r y cols, marksIn g 'h' r y cols, marksIn g 'e' r y cols,
    versIn g r y cols, []⟩

/-- The additions of cell row `r`. -/
def cellRowDelta (g : Grid) (r y : Nat) : Delta :=
  (cellsDelta g r y (List.range (g.W - 1))).app (lettersDelta g r y [g.W - 1])

/-- The additions of the wall row after cell row `r`, in columns `cols`. -/
def wallsDelta (g : Grid) (r y : Nat) (cols : List Nat) : Delta :=
  ⟨[], [], [], [], horsIn g r y cols⟩

/-- The additions of the cell rows `rows`, each followed by its wall row. -/
def rowsDelta (g : Grid) (rows : List Nat) : Delta :=
  ⟨rows.flatMap (rowMarks g 'n'), rows.flatMap (rowMarks g 'h'), rows.flatMap (rowMarks g 'e'),
    rows.flatMap (rowVer g), rows.flatMap (rowHor g)⟩

/-- The text of the cell rows `rows`, each followed by its wall row. -/
def rowsText (g : Grid) (rows : List Nat) : List Char :=
  rows.flatMap (rowPair g)

/-- The additions of the outer walls. -/
def outerDelta (W H : Nat) : Delta := ⟨[], [], [], outerVer W H, outerHor W H⟩

/-- The level in which only the dimensions have been set (lines 82-83). -/
def dimsLevel (W H : Nat) : LevelDesc := { LevelDesc.init with h := some H, w := some W }

/-- The height the reader infers from the file size (line 76). -/
def inferredHeight (filesize w : Nat) : Nat := (filesize / (w * 4 + 2) - 1) / 2

/-- The number of `|` between cells in the text of a drawing. -/
def countVer (g : Grid) : Nat :=
  ((List.range g.H).map (fun r => (List.range (g.W - 1)).countP (fun c => g.vwall r c))).sum

/-- The number of `---` in the wall rows of the text of a drawing. -/
def countHor (g : Grid) : Nat :=
  ((List.range (g.H - 1)).map (fun r => (List.range g.W).countP (fun c => g.hwall r c))).sum

/-- The text `+---+` / `| n |` / `+---+`, every line ended by a newline. -/
def exampleText : List Char := "+---+\n| n |\n+---+\n".toList

/-- The smallest level text without markers: `+---+` / `|   |` / `+---+`. -/
def minimalText : List Char := "+---+\n|   |\n+---+\n".toList

/-- Two cells in one row with a `|` between them: `+---+---+` / `|   |   |` / `+---+---+`. -/
def twoCellText : List Char := "+---+---+\n|   |   |\n+---+---+\n".toList

/-- The drawing of `twoCellText`. -/
def twoCellGrid : Grid :=
  { W := 2, H := 1, cell := fun _ _ => ' ', vwall := fun _ _ => true, hwall := fun _ _ => false }

/-- A drawing of three columns and two rows:
`+---+---+---+` / `|     h | n |` / `+   +---+   +` / `| e |     h |` / `+---+---+---+`. -/
def demoGrid : Grid :=
  { W := 3
    H := 2
    cell := fun r c =>
      if r = 0 then (if c = 1 then 'h' else if c = 2 then 'n' else ' ')
      else (if c = 0 then 'e' else if c = 2 then 'h' else ' ')
    vwall := fun r c => decide ((r = 0 ∧ c = 1) ∨ (r = 1 ∧ c = 0))
    hwall := fun _ c => decide (c = 1) }

/-- The level text of `demoGrid`. -/
def demoText : List Char :=
  "+---+---+---+\n|     h | n |\n+   +---+   +\n| e |     h |\n+---+---+---+\n".toList

/-- The drawing in which the marker of column `c` of cell row `r` is replaced by `b`. -/
def Grid.setCell (g : Grid) (r c : Nat) (b : Char) : Grid :=
  { g with cell := fun r1 c1 => if r1 = r ∧ c1 = c then b else g.cell r1 c1 }

/-- What an accepted pair of rows is made of: the markers and wall choices of the cells
before the last, the marker of the last cell, the wall choices of the wall row. -/
structure RowData where
  cells : List (Char × Bool)
  last : Char
  walls : List Bool

/-- Row data for `w` columns, with markers only. -/
def RowData.ok (w : Nat) (rd : RowData) : Prop :=
  rd.cells.length = w - 1 ∧ rd.walls.length = w ∧ (∀ p ∈ rd.cells, isMarker p.1) ∧
    isMarker rd.last

/-- The four characters of a cell before the last. -/
def cellChunk (p : Char × Bool) : List Char := [p.1, ' ', if p.2 then '|' else ' ', ' ']

/-- The four characters of a wall row under a cell. -/
def wallChunk (v : Bool) : List Char := '+' :: List.replicate 3 (if v then '-' else ' ')

/-- The cell row of row data, without its newline. -/
def RowData.cellLine (rd : RowData) : List Char :=
  ['|', ' '] ++ rd.cells.flatMap cellChunk ++ [rd.last, ' ', '|']

/-- The wall row of row data, without its newline. -/
def RowData.wallLine (rd : RowData) : List Char :=
  rd.walls.flatMap wallChunk ++ ['+']

/-- Row data that stands for no row. -/
def RowData.blank : RowData := ⟨[], ' ', []⟩

/-- The drawing whose rows are given by a list of row data, from the top. -/
def gridOfRows (W H : Nat) (R : List RowData) : Grid :=
  { W := W
    H := H
    cell := fun r c =>
      if c < W - 1 then ((R.getD r RowData.blank).cells.getD c (' ', false)).1
      else (R.getD r RowData.blank).last
    vwall := fun r c => ((R.getD r RowData.blank).cells.getD c (' ', false)).2
    hwall := fun r c => (R.getD r RowData.blank).walls.getD c false }

/-- The text of a list of row data: each cell row followed by its wall row. -/
def rowDataText (rows : List RowData) : List Char :=
  rows.flatMap (fun rd => rd.cellLine ++ '\n' :: (rd.wallLine ++ ['\n']))

/-- A piece of the reader that never uses up the bound of the first-line loop. -/
def NoFuel {α : Type} (p : P α) : Prop := ∀ lv s, p lv s ≠ .outOfFuel

/-- The drawing of `minimalText`. -/
def minimalGrid : Grid :=
  { W := 1, H := 1, cell := fun _ _ => ' ', vwall := fun _ _ => false, hwall := fun _ _ => false }

/-- The index, in a level text of `W` columns, of the marker of column `c` of cell row
`r`: the border line and `r` pairs of rows come before its cell row, each line has
`4*W+2` bytes, and the marker of column `c` is byte `2 + 4*c` of its line. -/
def markerIndex (W r c : Nat) : Nat := (4 * W + 2) + r * (2 * (4 * W + 2)) + (2 + 4 * c)

/-- Two rows of two cells with three `n` markers:
`+---+---+` / `| n   n |` / `+   +   +` / `| h   n |` / `+---+---+`. -/
def threeGrid : Grid :=
  { W := 2
    H := 2
    cell := fun r c => if r = 1 ∧ c = 0 then 'h' else 'n'
    vwall := fun _ _ => false
    hwall := fun _ _ => false }

/-- The level text of `threeGrid`. -/
def threeText : List Char := "+---+---+\n| n   n |\n+   +   +\n| h   n |\n+---+---+\n".toList

/-- The text with every newline replaced by carriage return and newline. -/
def crlf (t : List Char) : List Char :=
  t.flatMap (fun c => if c = '\n' then ['\r', '\n'] else [c])

/-- Two rows of one cell, the wall row between them drawn with `---`:
`+---+` / `| h |` / `+---+` / `| n |` / `+---+`. -/
def towerGrid : Grid :=
  { W := 1
    H := 2
    cell := fun r _ => if r = 0 then 'h' else 'n'
    vwall := fun _ _ => false
    hwall := fun _ _ => true }

/-- The value of `h` on line 76 with the machine integers: the quotient is a 64-bit
`size_t`, the subtraction of 1 is modulo `2^64`, and the half is converted to a 32-bit
`int`, which keeps its low 32 bits in two's complement. -/
def machineHeight (filesize w : Nat) : Int :=
  let v := ((filesize / (w * 4 + 2) + 2 ^ 64 - 1) % 2 ^ 64) / 2
  if v % 2 ^ 32 < 2 ^ 31 then ((v % 2 ^ 32 : Nat) : Int) else ((v % 2 ^ 32 : Nat) : Int) - 2 ^ 32

@[simp] theorem bind_run {α β : Type} (p : P α) (f : α → P β) (lv : LevelDesc)
    (s : List Char) :
    (p >>= f) lv s =
      match p lv s with
      | .ok a l1 s1 => f a l1 s1
      | .invalid l1 => .invalid l1
      | .outOfFuel => .outOfFuel := rfl

@[simp] theorem pure_run {α : Type} (a : α) (lv : LevelDesc) (s : List Char) :
    (pure a : P α) lv s = .ok a lv s := rfl

@[simp] theorem invalid_run {α : Type} (lv : LevelDesc) (s : List Char) :
    (INVALID_FORMAT : P α) lv s = .invalid lv := rfl

@[simp] theorem ite_run {α : Type} (c : Prop) [Decidable c] (p q : P α) (lv : LevelDesc)
    (s : List Char) :
    (if c then p else q) lv s = if c then p lv s else q lv s := by
  split <;> rfl

@[simp] theorem get_nil (lv : LevelDesc) : get lv [] = .ok none lv [] := rfl

@[simp] theorem get_cons (lv : LevelDesc) (c : Char) (s : List Char) :
    get lv (c :: s) = .ok (some c) lv s := rfl

@[simp] theorem modifyLevel_run (f : LevelDesc → LevelDesc) (lv : LevelDesc) (s : List Char) :
    modifyLevel f lv s = .ok () (f lv) s := rfl

@[simp] theorem EXPECT_CHAR_nil (c : Char) (lv : LevelDesc) :
    EXPECT_CHAR c lv [] = .invalid lv := by
  simp [EXPECT_CHAR]

@[simp] theorem EXPECT_CHAR_cons (c d : Char) (lv : LevelDesc) (s : List Char) :
    EXPECT_CHAR c lv (d :: s) = if d = c then .ok () lv s else .invalid lv := by
  by_cases h : d = c <;> simp [EXPECT_CHAR, h]

theorem UseLetterLambda_some (m : Char) (x y : Nat) (lv : LevelDesc) (s : List Char) :
    UseLetterLambda (some m) x y lv s = .ok (decide (isMarker m)) (letterEffect m x y lv) s := by
  unfold UseLetterLambda letterEffect isMarker
  by_cases h1 : m = 'n'
  · simp [h1]
  by_cases h2 : m = 'h'
  · simp [h2]
  by_cases h3 : m = 'e'
  · simp [h3]
  by_cases h4 : m = ' '
  · simp [h4]
  simp [h1, h2, h3, h4]

theorem UseLetterLambda_none (x y : Nat) (lv : LevelDesc) (s : List Char) :
    UseLetterLambda none x y lv s = .ok false lv s := by
  simp [UseLetterLambda]

/-! ## Additions to the level -/

theorem getLast?_append_getD {α : Type} (l1 l2 : List α) (d : α) :
    (l1 ++ l2).getLast?.getD d = l2.getLast?.getD (l1.getLast?.getD d) := by
  rw [List.getLast?_append]
  cases l2.getLast? <;> simp

@[simp] theorem Delta.apply_empty (lv : LevelDesc) : Delta.empty.apply lv = lv := by
  simp [Delta.apply, Delta.empty]

@[simp] theorem Delta.apply_apply (d e : Delta) (lv : LevelDesc) :
    e.apply (d.apply lv) = (d.app e).apply lv := by
  simp only [Delta.apply, Delta.app, getLast?_append_getD, List.append_assoc]

@[simp] theorem Delta.app_empty (d : Delta) : d.app Delta.empty = d := by
  simp [Delta.app, Delta.empty]

@[simp] theorem Delta.empty_app (d : Delta) : Delta.empty.app d = d := by
  simp [Delta.app, Delta.empty]

theorem Delta.app_assoc (d e f : Delta) : (d.app e).app f = d.app (e.app f) := by
  simp [Delta.app]

theorem cellsDelta_append (g : Grid) (r y : Nat) (c1 c2 : List Nat) :
    cellsDelta g r y (c1 ++ c2) = (cellsDelta g r y c1).app (cellsDelta g r y c2) := by
  simp [cellsDelta, Delta.app, marksIn, versIn]

theorem wallsDelta_append (g : Grid) (r y : Nat) (c1 c2 : List Nat) :
    wallsDelta g r y (c1 ++ c2) = (wallsDelta g r y c1).app (wallsDelta g r y c2) := by
  simp [wallsDelta, Delta.app, horsIn]

/-! ## Reading a well-formed cell row -/

theorem letterEffect_eq (g : Grid) (r y x : Nat) (lv : LevelDesc)
    (hm : isMarker (g.cell r x)) :
    letterEffect (g.cell r x) x y lv = (lettersDelta g r y [x]).apply lv := by
  unfold isMarker at hm
  rcases hm with h | h | h | h <;>
    simp [letterEffect, lettersDelta, Delta.apply, marksIn, h]

theorem cellBody_ok (g : Grid) (r y x : Nat) (lv : LevelDesc) (s : List Char)
    (hm : isMarker (g.cell r x)) :
    cellBody x y lv (cellText g r x ++ s) = .ok () ((cellsDelta g r y [x]).apply lv) s := by
  have e := letterEffect_eq g r y x lv hm
  cases hv : g.vwall r x <;>
    simp [cellBody, cellText, UseLetterLambda_some, hm, hv, e, cellsDelta, lettersDelta,
      Delta.apply, versIn]

theorem cellLoop_ok (g : Grid) (r y : Nat) :
    ∀ (n x : Nat) (lv : LevelDesc) (s : List Char),
      (∀ c, x ≤ c → c < x + n → isMarker (g.cell r c)) →
      cellLoop y n x lv ((List.range' x n).flatMap (cellText g r) ++ s)
        = .ok (x + n) ((cellsDelta g r y (List.range' x n)).apply lv) s := by
  intro n
  induction n with
  | zero =>
    intro x lv s _
    simp [cellLoop, cellsDelta, Delta.apply, marksIn, versIn]
  | succ n ih =>
    intro x lv s hm
    have h0 : isMarker (g.cell r x) := hm x (le_refl x) (by omega)
    have hrest : ∀ c, x + 1 ≤ c → c < x + 1 + n → isMarker (g.cell r c) :=
      fun c h1 h2 => hm c (by omega) (by omega)
    have e : List.range' x (n + 1) = [x] ++ List.range' (x + 1) n := by
      simp [List.range'_succ]
    rw [e, cellsDelta_append, List.flatMap_append]
    simp only [List.flatMap_cons, List.flatMap_nil, List.append_nil, List.append_assoc]
    simp only [cellLoop, bind_run, cellBody_ok g r y x lv _ h0, ih (x + 1) _ s hrest,
      Delta.apply_apply]
    congr 1
    omega

theorem range_pred_append {W : Nat} (hW : 1 ≤ W) : List.range (W - 1) ++ [W - 1] = List.range W := by
  obtain ⟨k, rfl⟩ : ∃ k, W = k + 1 := ⟨W - 1, by omega⟩
  simp [List.range_succ]

theorem cellRowDelta_eq (g : Grid) (r y : Nat) (hW : 1 ≤ g.W) :
    cellRowDelta g r y =
      ⟨marksIn g 'n' r y (List.range g.W), marksIn g 'h' r y (List.range g.W),
        marksIn g 'e' r y (List.range g.W), versIn g r y (List.range (g.W - 1)), []⟩ := by
  simp only [cellRowDelta, cellsDelta, lettersDelta, Delta.app, marksIn, List.append_nil,
    ← List.map_append, ← List.filter_append, range_pred_append hW]

theorem cellRow_ok (g : Grid) (r y : Nat) (lv : LevelDesc) (s : List Char) (hW : 1 ≤ g.W)
    (hm : ∀ c, c < g.W → isMarker (g.cell r c)) :
    cellRow g.W y lv (cellLine g r ++ '\n' :: s) = .ok () ((cellRowDelta g r y).apply lv) s := by
  have hl := cellLoop_ok g r y (g.W - 1) 0 lv
    (g.cell r (g.W - 1) :: ' ' :: '|' :: '\n' :: s) (fun c _ h => hm c (by omega))
  rw [← List.range_eq_range'] at hl
  have hlast : isMarker (g.cell r (g.W - 1)) := hm _ (by omega)
  simp [cellRow, cellLine, hl, UseLetterLambda_some, hlast, letterEffect_eq g r y _ _ hlast,
    cellRowDelta]

/-! ## Reading a well-formed wall row -/

theorem wallBody_ok (g : Grid) (r y x : Nat) (lv : LevelDesc) (s : List Char) :
    wallBody x y lv (wallText g r x ++ s) = .ok () ((wallsDelta g r y [x]).apply lv) s := by
  cases hv : g.hwall r x <;>
    simp [wallBody, wallText, hv, wallsDelta, Delta.apply, horsIn, List.replicate]

theorem wallLoop_ok (g : Grid) (r y : Nat) :
    ∀ (n x : Nat) (lv : LevelDesc) (s : List Char),
      wallLoop y n x lv ((List.range' x n).flatMap (wallText g r) ++ s)
        = .ok () ((wallsDelta g r y (List.range' x n)).apply lv) s := by
  intro n
  induction n with
  | zero =>
    intro x lv s
    simp [wallLoop, wallsDelta, Delta.apply, horsIn]
  | succ n ih =>
    intro x lv s
    have e : List.range' x (n + 1) = [x] ++ List.range' (x + 1) n := by
      simp [List.range'_succ]
    rw [e, wallsDelta_append, List.flatMap_append]
    simp only [List.flatMap_cons, List.flatMap_nil, List.append_nil, List.append_assoc]
    simp only [wallLoop, bind_run, wallBody_ok g r y x lv _, ih (x + 1) _ s,
      Delta.apply_apply]

theorem wallRow_ok (g : Grid) (r y : Nat) (lv : LevelDesc) (s : List Char) :
    wallRow g.W y lv (wallLine g r ++ '\n' :: s)
      = .ok () ((wallsDelta g r y (List.range g.W)).apply lv) s := by
  have hl := wallLoop_ok g r y g.W 0 lv ('+' :: '\n' :: s)
  rw [← List.range_eq_range'] at hl
  simp [wallRow, wallLine, hl]

/-! ## Reading the rows of a well-formed text -/

theorem rowsDelta_cons (g : Grid) (r : Nat) (rows : List Nat) (hW : 1 ≤ g.W) :
    rowsDelta g (r :: rows) =
      ((cellRowDelta g r (g.H - 1 - r)).app (wallsDelta g r (g.H - 1 - r) (List.range g.W))).app
        (rowsDelta g rows) := by
  rw [cellRowDelta_eq g r _ hW]
  simp [rowsDelta, Delta.app, wallsDelta, rowMarks, rowVer, rowHor, marksIn, versIn, horsIn]

theorem rowsText_cons (g : Grid) (r : Nat) (rows : List Nat) (s : List Char) :
    rowsText g (r :: rows) ++ s
      = cellLine g r ++ '\n' :: (wallLine g r ++ '\n' :: (rowsText g rows ++ s)) := by
  simp [rowsText, rowPair]

theorem rowLoop_ok (g : Grid) (hW : 1 ≤ g.W) :
    ∀ (y r : Nat) (lv : LevelDesc) (s : List Char),
      r + y + 1 = g.H →
      (∀ r1 c, r ≤ r1 → r1 < r + y → c < g.W → isMarker (g.cell r1 c)) →
      rowLoop g.W y lv (rowsText g (List.range' r y) ++ s)
        = .ok 0 ((rowsDelta g (List.range' r y)).apply lv) s := by
  intro y
  induction y with
  | zero =>
    intro r lv s _ _
    simp [rowLoop, rowsText, rowsDelta, Delta.apply]
  | succ y ih =>
    intro r lv s hr hm
    have hy : g.H - 1 - r = y + 1 := by omega
    rw [List.range'_succ, rowsDelta_cons g r _ hW, hy, rowsText_cons]
    have hc := cellRow_ok g r (y + 1) lv
      (wallLine g r ++ '\n' :: (rowsText g (List.range' (r + 1) y) ++ s)) hW
      (fun c h => hm r c (le_refl r) (by omega) h)
    have hi := ih (r + 1) (((cellRowDelta g r (y + 1)).app
      (wallsDelta g r (y + 1) (List.range g.W))).apply lv) s (by omega)
      (fun r1 c h1 h2 h3 => hm r1 c (by omega) (by omega) h3)
    simp only [rowLoop, bind_run, hc, wallRow_ok, Delta.apply_apply, hi]

/-! ## Reading the border lines -/

theorem firstLine_ok :
    ∀ (n fuel w : Nat) (lv : LevelDesc) (s : List Char), n < fuel →
      firstLine fuel w lv ((List.replicate n ['+', '-', '-', '-']).flatten ++ '+' :: '\n' :: s)
        = .ok (w + n) lv s := by
  intro n
  induction n with
  | zero =>
    intro fuel w lv s hf
    obtain ⟨k, rfl⟩ : ∃ k, fuel = k + 1 := ⟨fuel - 1, by omega⟩
    simp [firstLine]
  | succ n ih =>
    intro fuel w lv s hf
    obtain ⟨k, rfl⟩ : ∃ k, fuel = k + 1 := ⟨fuel - 1, by omega⟩
    have hi := ih k (w + 1) lv s (by omega)
    simp only [List.replicate_succ, List.flatten_cons, List.cons_append, List.nil_append,
      firstLine, bind_run, EXPECT_CHAR_cons, get_cons, if_true, ite_run, hi]
    congr 1
    omega

theorem endLoop_ok :
    ∀ (n : Nat) (lv : LevelDesc) (s : List Char),
      endLoop n lv ((List.replicate n ['+', '-', '-', '-']).flatten ++ s) = .ok () lv s := by
  intro n
  induction n with
  | zero => intro lv s; simp [endLoop]
  | succ n ih =>
    intro lv s
    simp only [List.replicate_succ, List.flatten_cons, List.cons_append, List.nil_append,
      endLoop, bind_run, EXPECT_CHAR_cons, if_true, ih]

theorem endLine_ok (W : Nat) (lv : LevelDesc) (s : List Char) :
    endLine W lv (borderLine W ++ s) = .ok () lv s := by
  have h := endLoop_ok W lv ('+' :: s)
  simp [endLine, borderLine, h]

/-! ## Adding the outer walls -/

theorem addHorLoop_run (h : Nat) :
    ∀ (n x : Nat) (lv : LevelDesc) (s : List Char),
      addHorLoop h n x lv s
        = .ok () { lv with hor_walls := lv.hor_walls
                    ++ (List.range' x n).flatMap (fun x => [(x, 0), (x, h)]) } s := by
  intro n
  induction n with
  | zero => intro x lv s; simp [addHorLoop]
  | succ n ih =>
    intro x lv s
    simp [addHorLoop, ih, List.range'_succ]

theorem addVerLoop_run (w : Nat) :
    ∀ (n y : Nat) (lv : LevelDesc) (s : List Char),
      addVerLoop w n y lv s
        = .ok () { lv with ver_walls := lv.ver_walls
                    ++ (List.range' y n).flatMap (fun y => [(0, y), (w, y)]) } s := by
  intro n
  induction n with
  | zero => intro y lv s; simp [addVerLoop]
  | succ n ih =>
    intro y lv s
    simp [addVerLoop, ih, List.range'_succ]

theorem addOuter_run (w h : Nat) (lv : LevelDesc) (s : List Char) :
    (addHorLoop h w 0 >>= fun _ => addVerLoop w h 0) lv s
      = .ok () ((outerDelta w h).apply lv) s := by
  simp [addHorLoop_run, addVerLoop_run, outerDelta, Delta.apply, outerVer, outerHor,
    List.range_eq_range']

/-! ## Lengths -/

theorem segs_length (W : Nat) :
    ((List.replicate W ['+', '-', '-', '-']).flatten).length = 4 * W := by
  induction W with
  | zero => simp
  | succ n ih => simp [List.replicate_succ, ih]; omega

theorem borderLine_length (W : Nat) : (borderLine W).length = 4 * W + 1 := by
  simp only [borderLine, List.length_append, segs_length, List.length_singleton]

theorem flatMap_length_const {α β : Type} (l : List α) (f : α → List β) (k : Nat)
    (h : ∀ a ∈ l, (f a).length = k) : (l.flatMap f).length = l.length * k := by
  induction l with
  | nil => simp
  | cons a l ih =>
    have h1 := h a (by simp)
    have h2 := ih (fun b hb => h b (by simp [hb]))
    simp [List.flatMap_cons, h1, h2]
    ring

theorem cellLine_length (g : Grid) (r : Nat) (hW : 1 ≤ g.W) :
    (cellLine g r).length = 4 * g.W + 1 := by
  have h := flatMap_length_const (List.range (g.W - 1)) (cellText g r) 4
    (fun a _ => by simp [cellText])
  simp [cellLine, h]
  omega

theorem wallLine_length (g : Grid) (r : Nat) : (wallLine g r).length = 4 * g.W + 1 := by
  have h := flatMap_length_const (List.range g.W) (wallText g r) 4
    (fun a _ => by simp [wallText])
  simp [wallLine, h]
  omega

theorem rowsText_length (g : Grid) (rows : List Nat) (hW : 1 ≤ g.W) :
    (rowsText g rows).length = rows.length * (2 * (4 * g.W + 2)) := by
  apply flatMap_length_const
  intro r _
  simp [rowPair, cellLine_length g r hW, wallLine_length]
  omega

theorem renderBody_length (g : Grid) (hW : 1 ≤ g.W) (hH : 1 ≤ g.H) :
    (renderBody g).length + 1 = (2 * g.H + 1) * (4 * g.W + 2) := by
  have h := rowsText_length g (List.range (g.H - 1)) hW
  simp only [rowsText] at h
  simp only [renderBody, List.length_append, h, borderLine_length, cellLine_length g _ hW,
    List.length_range, List.length_singleton]
  obtain ⟨k, hk⟩ : ∃ k, g.H = k + 1 := ⟨g.H - 1, by omega⟩
  rw [hk]
  simp only [Nat.add_sub_cancel]
  ring

theorem render_length (g : Grid) (hW : 1 ≤ g.W) (hH : 1 ≤ g.H) :
    (render g).length = (2 * g.H + 1) * (4 * g.W + 2) := by
  simp [render, renderBody_length g hW hH]

theorem inferredHeight_render (g : Grid) (hW : 1 ≤ g.W) (hH : 1 ≤ g.H) :
    inferredHeight (render g).length g.W = g.H := by
  rw [render_length g hW hH, inferredHeight]
  have e : g.W * 4 + 2 = 4 * g.W + 2 := by omega
  rw [e, Nat.mul_div_cancel _ (by omega)]
  omega

/-! ## Reading a well-formed text -/

theorem renderBody_unfold (g : Grid) (rest : List Char) :
    renderBody g ++ rest
      = (List.replicate g.W ['+', '-', '-', '-']).flatten ++ '+' :: '\n' ::
          (rowsText g (List.range' 0 (g.H - 1)) ++
            (cellLine g (g.H - 1) ++ '\n' :: (borderLine g.W ++ rest))) := by
  simp [renderBody, rowsText, borderLine, List.range_eq_range']

theorem total_delta (g : Grid) (hW : 1 ≤ g.W) (hH : 1 ≤ g.H) :
    (outerDelta g.W g.H).apply ((cellRowDelta g (g.H - 1) 0).apply
        ((rowsDelta g (List.range' 0 (g.H - 1))).apply (dimsLevel g.W g.H)))
      = levelOf g := by
  rw [cellRowDelta_eq g _ _ hW, ← List.range_eq_range']
  have e0 : g.H - 1 - (g.H - 1) = 0 := by omega
  have em : ∀ ch, marks g ch
      = (List.range (g.H - 1)).flatMap (rowMarks g ch) ++ marksIn g ch (g.H - 1) 0 (List.range g.W) := by
    intro ch
    rw [marks, ← range_pred_append hH, List.flatMap_append]
    simp [rowMarks, marksIn, e0]
  have ev : innerVer g
      = (List.range (g.H - 1)).flatMap (rowVer g) ++ versIn g (g.H - 1) 0 (List.range (g.W - 1)) := by
    rw [innerVer, ← range_pred_append hH, List.flatMap_append]
    simp [rowVer, versIn, e0]
  simp only [levelOf, em, ev, innerHor, Delta.apply, outerDelta, rowsDelta, dimsLevel,
    LevelDesc.init, getLast?_append_getD, List.nil_append, List.append_nil, List.append_assoc,
    List.getLast?_nil, Option.getD_none]

theorem readBody_ok (g : Grid) (hg : g.WellFormed) (rest : List Char) (filesize : Nat)
    (hfuel : g.W ≤ filesize) (hsize : inferredHeight filesize g.W = g.H) :
    readBody filesize LevelDesc.init (renderBody g ++ rest) = .ok () (levelOf g) rest := by
  obtain ⟨hW, hH, hm⟩ := hg
  have h1 := firstLine_ok g.W (filesize + 1) 0 LevelDesc.init
    (rowsText g (List.range' 0 (g.H - 1)) ++
      (cellLine g (g.H - 1) ++ '\n' :: (borderLine g.W ++ rest))) (by omega)
  rw [Nat.zero_add] at h1
  have hs : (filesize / (g.W * 4 + 2) - 1) / 2 = g.H := hsize
  have hcond : ¬ (g.W < 1 ∨ g.H < 1) := by omega
  have h2 := rowLoop_ok g hW (g.H - 1) 0 (dimsLevel g.W g.H)
    (cellLine g (g.H - 1) ++ '\n' :: (borderLine g.W ++ rest)) (by omega)
    (fun r1 c _ h2 h3 => hm r1 c (by omega) h3)
  have h3 := cellRow_ok g (g.H - 1) 0
    ((rowsDelta g (List.range' 0 (g.H - 1))).apply (dimsLevel g.W g.H))
    (borderLine g.W ++ rest) hW (fun c h => hm _ c (by omega) h)
  have h4 := addOuter_run g.W g.H
  simp only [bind_run] at h4
  rw [renderBody_unfold]
  simp only [readBody, bind_run, h1, hs, hcond, if_false, ite_run, modifyLevel_run]
  have h5 := total_delta g hW hH
  unfold dimsLevel at h2 h3 h5
  simp only [h2, h3, endLine_ok, h4, h5]

/-- Reading a text that starts with the body of a well-formed drawing: when the file
size gives the height of the drawing, the reader returns the level of the drawing. -/
theorem ReadLevelDesc_body (g : Grid) (hg : g.WellFormed) (rest : List Char)
    (hsize : inferredHeight (renderBody g ++ rest).length g.W = g.H) :
    ReadLevelDesc (some (renderBody g ++ rest)) = .returned (levelOf g) := by
  have hlen : g.W ≤ (renderBody g ++ rest).length := by
    have := renderBody_length g hg.1 hg.2.1
    have e : (2 * g.H + 1) * (4 * g.W + 2) = 2 * g.H * (4 * g.W + 2) + (4 * g.W + 2) := by ring
    simp only [List.length_append]
    omega
  simp only [ReadLevelDesc, readBody_ok g hg rest _ hlen hsize]

/-- Reading the level text of a well-formed drawing returns the level of the drawing. -/
theorem ReadLevelDesc_render (g : Grid) (hg : g.WellFormed) :
    ReadLevelDesc (some (render g)) = .returned (levelOf g) :=
  ReadLevelDesc_body g hg ['\n'] (inferredHeight_render g hg.1 hg.2.1)

/-! ## Reading a text with a cell that holds no marker -/

theorem cellBody_bad (g : Grid) (r y x : Nat) (lv : LevelDesc) (s : List Char)
    (hm : ¬ isMarker (g.cell r x)) :
    ∃ lv1, cellBody x y lv (cellText g r x ++ s) = .invalid lv1 := by
  refine ⟨letterEffect (g.cell r x) x y lv, ?_⟩
  simp [cellBody, cellText, UseLetterLambda_some, hm]

theorem cellLoop_bad (g : Grid) (r y : Nat) :
    ∀ (n x : Nat) (lv : LevelDesc) (s : List Char),
      (∃ c, x ≤ c ∧ c < x + n ∧ ¬ isMarker (g.cell r c)) →
      ∃ lv1, cellLoop y n x lv ((List.range' x n).flatMap (cellText g r) ++ s) = .invalid lv1 := by
  intro n
  induction n with
  | zero =>
    rintro x lv s ⟨c, h1, h2, _⟩
    omega
  | succ n ih =>
    rintro x lv s ⟨c, h1, h2, hbad⟩
    simp only [List.range'_succ, List.flatMap_cons, List.append_assoc, cellLoop, bind_run]
    by_cases h0 : isMarker (g.cell r x)
    · have hcx : c ≠ x := fun e => hbad (e ▸ h0)
      obtain ⟨lv1, h⟩ := ih (x + 1) ((cellsDelta g r y [x]).apply lv) s
        ⟨c, by omega, by omega, hbad⟩
      exact ⟨lv1, by simp only [cellBody_ok g r y x lv _ h0, h]⟩
    · obtain ⟨lv1, h⟩ := cellBody_bad g r y x lv
        ((List.range' (x + 1) n).flatMap (cellText g r) ++ s) h0
      exact ⟨lv1, by simp only [h]⟩

theorem cellRow_bad (g : Grid) (r y : Nat) (lv : LevelDesc) (s : List Char) (hW : 1 ≤ g.W)
    (hbad : ∃ c, c < g.W ∧ ¬ isMarker (g.cell r c)) :
    ∃ lv1, cellRow g.W y lv (cellLine g r ++ '\n' :: s) = .invalid lv1 := by
  by_cases hfront : ∃ c, c < g.W - 1 ∧ ¬ isMarker (g.cell r c)
  · obtain ⟨c, hc, hb⟩ := hfront
    obtain ⟨lv1, h⟩ := cellLoop_bad g r y (g.W - 1) 0 lv
      (g.cell r (g.W - 1) :: ' ' :: '|' :: '\n' :: s) ⟨c, by omega, by omega, hb⟩
    rw [← List.range_eq_range'] at h
    exact ⟨lv1, by simp [cellRow, cellLine, h]⟩
  · have hok : ∀ c, c < g.W - 1 → isMarker (g.cell r c) := by
      intro c hc
      by_contra hb
      exact hfront ⟨c, hc, hb⟩
    have hl := cellLoop_ok g r y (g.W - 1) 0 lv
      (g.cell r (g.W - 1) :: ' ' :: '|' :: '\n' :: s) (fun c _ h => hok c (by omega))
    rw [← List.range_eq_range'] at hl
    have hlast : ¬ isMarker (g.cell r (g.W - 1)) := by
      obtain ⟨c, hc, hb⟩ := hbad
      have e : c = g.W - 1 := by
        by_contra hne
        exact hb (hok c (by omega))
      exact e ▸ hb
    exact ⟨_, by simp [cellRow, cellLine, hl, UseLetterLambda_some, hlast]; rfl⟩

theorem rowLoop_bad (g : Grid) (hW : 1 ≤ g.W) :
    ∀ (y r : Nat) (lv : LevelDesc) (s : List Char),
      (∃ r1 c, r ≤ r1 ∧ r1 < r + y ∧ c < g.W ∧ ¬ isMarker (g.cell r1 c)) →
      ∃ lv1, rowLoop g.W y lv (rowsText g (List.range' r y) ++ s) = .invalid lv1 := by
  intro y
  induction y with
  | zero =>
    rintro r lv s ⟨r1, c, h1, h2, _⟩
    omega
  | succ y ih =>
    rintro r lv s ⟨r1, c, h1, h2, hc, hbad⟩
    rw [List.range'_succ, rowsText_cons]
    simp only [rowLoop, bind_run]
    by_cases hrow : ∃ c, c < g.W ∧ ¬ isMarker (g.cell r c)
    · obtain ⟨lv1, h⟩ := cellRow_bad g r (y + 1) lv
        (wallLine g r ++ '\n' :: (rowsText g (List.range' (r + 1) y) ++ s)) hW hrow
      exact ⟨lv1, by simp only [h]⟩
    · have hok : ∀ c, c < g.W → isMarker (g.cell r c) := by
        intro c1 hc1
        by_contra hb
        exact hrow ⟨c1, hc1, hb⟩
      have hr1 : r1 ≠ r := fun e => hbad (e ▸ hok c hc)
      have hcr := cellRow_ok g r (y + 1) lv
        (wallLine g r ++ '\n' :: (rowsText g (List.range' (r + 1) y) ++ s)) hW hok
      obtain ⟨lv1, h⟩ := ih (r + 1) (((cellRowDelta g r (y + 1)).app
        (wallsDelta g r (y + 1) (List.range g.W))).apply lv) s
        ⟨r1, c, by omega, by omega, hc, hbad⟩
      exact ⟨lv1, by simp only [hcr, wallRow_ok, Delta.apply_apply, h]⟩

theorem readBody_bad (g : Grid) (hW : 1 ≤ g.W) (hH : 1 ≤ g.H) (rest : List Char)
    (filesize : Nat) (hfuel : g.W ≤ filesize) (hsize : inferredHeight filesize g.W = g.H)
    (hbad : ∃ r c, r < g.H ∧ c < g.W ∧ ¬ isMarker (g.cell r c)) :
    ∃ lv1, readBody filesize LevelDesc.init (renderBody g ++ rest) = .invalid lv1 := by
  have h1 := firstLine_ok g.W (filesize + 1) 0 LevelDesc.init
    (rowsText g (List.range' 0 (g.H - 1)) ++
      (cellLine g (g.H - 1) ++ '\n' :: (borderLine g.W ++ rest))) (by omega)
  rw [Nat.zero_add] at h1
  have hs : (filesize / (g.W * 4 + 2) - 1) / 2 = g.H := hsize
  have hcond : ¬ (g.W < 1 ∨ g.H < 1) := by omega
  rw [renderBody_unfold]
  simp only [readBody, bind_run, h1, hs, hcond, if_false, ite_run, modifyLevel_run]
  by_cases hfront : ∃ r c, r < g.H - 1 ∧ c < g.W ∧ ¬ isMarker (g.cell r c)
  · obtain ⟨r, c, hr, hc, hb⟩ := hfront
    obtain ⟨lv1, h⟩ := rowLoop_bad g hW (g.H - 1) 0 (dimsLevel g.W g.H)
      (cellLine g (g.H - 1) ++ '\n' :: (borderLine g.W ++ rest))
      ⟨r, c, by omega, by omega, hc, hb⟩
    unfold dimsLevel at h
    exact ⟨lv1, by simp only [h]⟩
  · have hok : ∀ r1 c, 0 ≤ r1 → r1 < 0 + (g.H - 1) → c < g.W → isMarker (g.cell r1 c) := by
      intro r1 c _ h2 h3
      by_contra hb
      exact hfront ⟨r1, c, by omega, h3, hb⟩
    have h2 := rowLoop_ok g hW (g.H - 1) 0 (dimsLevel g.W g.H)
      (cellLine g (g.H - 1) ++ '\n' :: (borderLine g.W ++ rest)) (by omega) hok
    have hlast : ∃ c, c < g.W ∧ ¬ isMarker (g.cell (g.H - 1) c) := by
      obtain ⟨r, c, hr, hc, hb⟩ := hbad
      have e : r = g.H - 1 := by
        by_contra hne
        exact hb (hok r c (by omega) (by omega) hc)
      exact ⟨c, hc, e ▸ hb⟩
    obtain ⟨lv1, h3⟩ := cellRow_bad g (g.H - 1) 0
      ((rowsDelta g (List.range' 0 (g.H - 1))).apply (dimsLevel g.W g.H))
      (borderLine g.W ++ rest) hW hlast
    unfold dimsLevel at h2 h3
    exact ⟨lv1, by simp only [h2, h3]⟩

/-- Reading the text of a drawing one of whose cells holds a character that is no marker
reports an invalid format. -/
theorem ReadLevelDesc_bad_marker (g : Grid) (hW : 1 ≤ g.W) (hH : 1 ≤ g.H)
    (hbad : ∃ r c, r < g.H ∧ c < g.W ∧ ¬ isMarker (g.cell r c)) :
    ∃ lv, ReadLevelDesc (some (render g)) = .invalidFormat lv := by
  have hlen : g.W ≤ (render g).length := by
    have := render_length g hW hH
    have e : (2 * g.H + 1) * (4 * g.W + 2) = 2 * g.H * (4 * g.W + 2) + (4 * g.W + 2) := by ring
    omega
  obtain ⟨lv1, h⟩ := readBody_bad g hW hH ['\n'] (render g).length hlen
    (inferredHeight_render g hW hH) hbad
  exact ⟨lv1, by simp only [ReadLevelDesc, render, h]; simp only [render] at h; simp only [h]⟩

/-! ## What an accepted input looks like -/

theorem bind_ok_inv {α β : Type} {p : P α} {f : α → P β} {lv lv2 : LevelDesc}
    {s s2 : List Char} {b : β} (h : (p >>= f) lv s = .ok b lv2 s2) :
    ∃ a lv1 s1, p lv s = .ok a lv1 s1 ∧ f a lv1 s1 = .ok b lv2 s2 := by
  rw [bind_run] at h
  cases hp : p lv s with
  | ok a lv1 s1 => rw [hp] at h; exact ⟨a, lv1, s1, rfl, h⟩
  | invalid l1 => rw [hp] at h; cases h
  | outOfFuel => rw [hp] at h; cases h

theorem EXPECT_CHAR_inv {c : Char} {lv lv1 : LevelDesc} {s s1 : List Char} {a : Unit}
    (h : EXPECT_CHAR c lv s = .ok a lv1 s1) : s = c :: s1 := by
  cases s with
  | nil => simp at h
  | cons d s0 =>
    rw [EXPECT_CHAR_cons] at h
    by_cases e : d = c
    · simp only [e, if_true, Res.ok.injEq] at h
      rw [e, h.2.2]
    · simp [e] at h

theorem UseLetterLambda_inv {c : Option Char} {x y : Nat} {lv lv1 : LevelDesc}
    {s s1 : List Char} {b : Bool} (h : UseLetterLambda c x y lv s = .ok b lv1 s1) :
    s1 = s ∧ (b = true → ∃ m, c = some m ∧ isMarker m) := by
  cases c with
  | none =>
    rw [UseLetterLambda_none] at h
    simp only [Res.ok.injEq] at h
    exact ⟨h.2.2.symm, fun hb => by simp [← h.1] at hb⟩
  | some m =>
    rw [UseLetterLambda_some] at h
    simp only [Res.ok.injEq] at h
    exact ⟨h.2.2.symm, fun hb => ⟨m, rfl, by simpa [← h.1] using hb⟩⟩

theorem letter_inv {x y : Nat} {lv l1 l2 l3 : LevelDesc} {s t1 t2 t3 : List Char}
    {c : Option Char} {used : Bool} {a : Unit}
    (hg : get lv s = .ok c l1 t1) (hu : UseLetterLambda c x y l1 t1 = .ok used l2 t2)
    (hi : (if (!used) = true then (INVALID_FORMAT : P Unit) else pure ()) l2 t2 = .ok a l3 t3) :
    ∃ m, isMarker m ∧ s = m :: t3 := by
  obtain ⟨e2, hm⟩ := UseLetterLambda_inv hu
  cases used with
  | false => simp at hi
  | true =>
    obtain ⟨m, rfl, hmk⟩ := hm rfl
    simp only [Bool.not_true, ite_run, pure_run, Res.ok.injEq, Bool.false_eq_true,
      if_false] at hi
    cases s with
    | nil => simp at hg
    | cons d s0 =>
      simp only [get_cons, Res.ok.injEq, Option.some.injEq] at hg
      refine ⟨m, hmk, ?_⟩
      rw [hg.1, hg.2.2, ← e2, hi.2.2]

theorem cellBody_inv {x y : Nat} {lv lv1 : LevelDesc} {s s1 : List Char} {a : Unit}
    (h : cellBody x y lv s = .ok a lv1 s1) :
    ∃ p : Char × Bool, isMarker p.1 ∧ s = cellChunk p ++ s1 := by
  unfold cellBody at h
  obtain ⟨c, l1, t1, hg, h1⟩ := bind_ok_inv h
  obtain ⟨used, l2, t2, hu, h2⟩ := bind_ok_inv h1
  obtain ⟨_, l3, t3, hi, h3⟩ := bind_ok_inv h2
  obtain ⟨m, hm, rfl⟩ := letter_inv hg hu hi
  obtain ⟨_, l4, t4, he1, h4⟩ := bind_ok_inv h3
  obtain ⟨c2, l5, t5, hg2, h5⟩ := bind_ok_inv h4
  obtain ⟨_, l6, t6, hw, h6⟩ := bind_ok_inv h5
  have e1 := EXPECT_CHAR_inv he1
  have e3 := EXPECT_CHAR_inv h6
  subst e1
  cases t4 with
  | nil =>
    simp only [get_nil, Res.ok.injEq] at hg2
    simp [← hg2.1] at hw
  | cons d t =>
    simp only [get_cons, Res.ok.injEq] at hg2
    obtain ⟨rfl, rfl, rfl⟩ := hg2
    by_cases hd : d = '|'
    · subst hd
      simp only [if_true, ite_run, modifyLevel_run, Res.ok.injEq] at hw
      refine ⟨(m, true), hm, ?_⟩
      simp [cellChunk, hw.2.2, e3]
    · by_cases hd2 : d = ' '
      · subst hd2
        simp at hw
        refine ⟨(m, false), hm, ?_⟩
        simp [cellChunk, hw.2, e3]
      · simp [hd, hd2] at hw

theorem cellLoop_inv {y : Nat} :
    ∀ (n x : Nat) {lv lv1 : LevelDesc} {s s1 : List Char} {a : Nat},
      cellLoop y n x lv s = .ok a lv1 s1 →
      a = x + n ∧ ∃ cells : List (Char × Bool), cells.length = n ∧
        (∀ p ∈ cells, isMarker p.1) ∧ s = cells.flatMap cellChunk ++ s1 := by
  intro n
  induction n with
  | zero =>
    intro x lv lv1 s s1 a h
    simp only [cellLoop, pure_run, Res.ok.injEq] at h
    exact ⟨h.1.symm, [], rfl, by simp, by simp [h.2.2]⟩
  | succ n ih =>
    intro x lv lv1 s s1 a h
    unfold cellLoop at h
    obtain ⟨_, l1, t1, hb, h1⟩ := bind_ok_inv h
    obtain ⟨p, hp, rfl⟩ := cellBody_inv hb
    obtain ⟨ha, cells, hlen, hmk, rfl⟩ := ih (x + 1) h1
    refine ⟨by omega, p :: cells, by simp [hlen], ?_, by simp⟩
    intro q hq
    rcases List.mem_cons.1 hq with rfl | hq
    · exact hp
    · exact hmk q hq

theorem cellRow_inv {w y : Nat} {lv lv1 : LevelDesc} {s s1 : List Char} {a : Unit}
    (h : cellRow w y lv s = .ok a lv1 s1) :
    ∃ (cells : List (Char × Bool)) (last : Char), cells.length = w - 1 ∧
      (∀ p ∈ cells, isMarker p.1) ∧ isMarker last ∧
      s = '|' :: ' ' :: (cells.flatMap cellChunk ++ last :: ' ' :: '|' :: '\n' :: s1) := by
  unfold cellRow at h
  obtain ⟨_, l1, t1, he1, h1⟩ := bind_ok_inv h
  obtain ⟨_, l2, t2, he2, h2⟩ := bind_ok_inv h1
  obtain ⟨x, l3, t3, hl, h3⟩ := bind_ok_inv h2
  obtain ⟨c, l4, t4, hg, h4⟩ := bind_ok_inv h3
  obtain ⟨used, l5, t5, hu, h5⟩ := bind_ok_inv h4
  obtain ⟨_, l6, t6, hi, h6⟩ := bind_ok_inv h5
  obtain ⟨_, l7, t7, he3, h7⟩ := bind_ok_inv h6
  obtain ⟨_, l8, t8, he4, h8⟩ := bind_ok_inv h7
  have e1 := EXPECT_CHAR_inv he1
  have e2 := EXPECT_CHAR_inv he2
  have e3 := EXPECT_CHAR_inv he3
  have e4 := EXPECT_CHAR_inv he4
  have e5 := EXPECT_CHAR_inv h8
  obtain ⟨_, cells, hlen, hmk, e6⟩ := cellLoop_inv _ _ hl
  obtain ⟨m, hm, e7⟩ := letter_inv hg hu hi
  refine ⟨cells, m, hlen, hmk, hm, ?_⟩
  rw [e1, e2, e6, e7, e3, e4, e5]

theorem wallBody_inv {x y : Nat} {lv lv1 : LevelDesc} {s s1 : List Char} {a : Unit}
    (h : wallBody x y lv s = .ok a lv1 s1) :
    ∃ v : Bool, s = wallChunk v ++ s1 := by
  unfold wallBody at h
  obtain ⟨_, l1, t1, he1, h1⟩ := bind_ok_inv h
  obtain ⟨c, l2, t2, hg, h2⟩ := bind_ok_inv h1
  have e1 := EXPECT_CHAR_inv he1
  subst e1
  cases t1 with
  | nil =>
    simp only [get_nil, Res.ok.injEq] at hg
    simp [← hg.1] at h2
  | cons d t =>
    simp only [get_cons, Res.ok.injEq] at hg
    obtain ⟨rfl, rfl, rfl⟩ := hg
    by_cases hd : d = ' '
    · subst hd
      simp only [if_true, ite_run] at h2
      obtain ⟨_, l3, t3, he2, h3⟩ := bind_ok_inv h2
      have e2 := EXPECT_CHAR_inv he2
      have e3 := EXPECT_CHAR_inv h3
      exact ⟨false, by simp [wallChunk, e2, e3, List.replicate]⟩
    · by_cases hd2 : d = '-'
      · subst hd2
        have hne : ¬ (some '-' = some ' ') := by decide
        simp only [ite_run, hne, if_false, if_true] at h2
        obtain ⟨_, l3, t3, he2, h3⟩ := bind_ok_inv h2
        obtain ⟨_, l4, t4, he3, h4⟩ := bind_ok_inv h3
        have e2 := EXPECT_CHAR_inv he2
        have e3 := EXPECT_CHAR_inv he3
        simp only [modifyLevel_run, Res.ok.injEq] at h4
        exact ⟨true, by simp [wallChunk, e2, e3, h4.2.2, List.replicate]⟩
      · simp [hd, hd2] at h2

theorem wallLoop_inv {y : Nat} :
    ∀ (n x : Nat) {lv lv1 : LevelDesc} {s s1 : List Char} {a : Unit},
      wallLoop y n x lv s = .ok a lv1 s1 →
      ∃ walls : List Bool, walls.length = n ∧ s = walls.flatMap wallChunk ++ s1 := by
  intro n
  induction n with
  | zero =>
    intro x lv lv1 s s1 a h
    simp only [wallLoop, pure_run, Res.ok.injEq] at h
    exact ⟨[], rfl, by simp [h.2.2]⟩
  | succ n ih =>
    intro x lv lv1 s s1 a h
    unfold wallLoop at h
    obtain ⟨_, l1, t1, hb, h1⟩ := bind_ok_inv h
    obtain ⟨v, rfl⟩ := wallBody_inv hb
    obtain ⟨walls, hlen, rfl⟩ := ih (x + 1) h1
    exact ⟨v :: walls, by simp [hlen], by simp⟩

theorem wallRow_inv {w y : Nat} {lv lv1 : LevelDesc} {s s1 : List Char} {a : Unit}
    (h : wallRow w y lv s = .ok a lv1 s1) :
    ∃ walls : List Bool, walls.length = w ∧
      s = walls.flatMap wallChunk ++ '+' :: '\n' :: s1 := by
  unfold wallRow at h
  obtain ⟨_, l1, t1, hl, h1⟩ := bind_ok_inv h
  obtain ⟨_, l2, t2, he1, h2⟩ := bind_ok_inv h1
  have e1 := EXPECT_CHAR_inv he1
  have e2 := EXPECT_CHAR_inv h2
  obtain ⟨walls, hlen, e3⟩ := wallLoop_inv _ _ hl
  exact ⟨walls, hlen, by rw [e3, e1, e2]⟩

theorem rowLoop_inv {w : Nat} :
    ∀ (y : Nat) {lv lv1 : LevelDesc} {s s1 : List Char} {a : Nat},
      rowLoop w y lv s = .ok a lv1 s1 →
      a = 0 ∧ ∃ rows : List RowData, rows.length = y ∧ (∀ rd ∈ rows, rd.ok w) ∧
        s = rowDataText rows ++ s1 := by
  intro y
  induction y with
  | zero =>
    intro lv lv1 s s1 a h
    simp only [rowLoop, pure_run, Res.ok.injEq] at h
    exact ⟨h.1.symm, [], rfl, by simp, by simp [rowDataText, h.2.2]⟩
  | succ y ih =>
    intro lv lv1 s s1 a h
    unfold rowLoop at h
    obtain ⟨_, l1, t1, hc, h1⟩ := bind_ok_inv h
    obtain ⟨_, l2, t2, hw, h2⟩ := bind_ok_inv h1
    obtain ⟨cells, last, hlen, hmk, hlast, rfl⟩ := cellRow_inv hc
    obtain ⟨walls, hwl, rfl⟩ := wallRow_inv hw
    obtain ⟨ha, rows, hrl, hok, rfl⟩ := ih h2
    refine ⟨ha, ⟨cells, last, walls⟩ :: rows, by simp [hrl], ?_, ?_⟩
    · intro rd hrd
      rcases List.mem_cons.1 hrd with rfl | hrd
      · exact ⟨hlen, hwl, hmk, hlast⟩
      · exact hok rd hrd
    · simp [rowDataText, RowData.cellLine, RowData.wallLine]

theorem firstLine_inv :
    ∀ (fuel w : Nat) {lv lv1 : LevelDesc} {s s1 : List Char} {a : Nat},
      firstLine fuel w lv s = .ok a lv1 s1 →
      ∃ n, a = w + n ∧
        s = (List.replicate n ['+', '-', '-', '-']).flatten ++ '+' :: '\n' :: s1 := by
  intro fuel
  induction fuel with
  | zero =>
    intro w lv lv1 s s1 a h
    simp [firstLine] at h
  | succ fuel ih =>
    intro w lv lv1 s s1 a h
    unfold firstLine at h
    obtain ⟨_, l1, t1, he1, h1⟩ := bind_ok_inv h
    obtain ⟨c, l2, t2, hg, h2⟩ := bind_ok_inv h1
    have e1 := EXPECT_CHAR_inv he1
    subst e1
    cases t1 with
    | nil =>
      simp only [get_nil, Res.ok.injEq] at hg
      simp [← hg.1] at h2
    | cons d t =>
      simp only [get_cons, Res.ok.injEq] at hg
      obtain ⟨rfl, rfl, rfl⟩ := hg
      by_cases hd : d = '-'
      · subst hd
        simp only [if_true, ite_run] at h2
        obtain ⟨_, l3, t3, he2, h3⟩ := bind_ok_inv h2
        obtain ⟨_, l4, t4, he3, h4⟩ := bind_ok_inv h3
        have e2 := EXPECT_CHAR_inv he2
        have e3 := EXPECT_CHAR_inv he3
        obtain ⟨n, rfl, rfl⟩ := ih (w + 1) h4
        exact ⟨n + 1, by omega, by simp [List.replicate_succ, e2, e3]⟩
      · by_cases hd2 : d = '\n'
        · subst hd2
          have hne : ¬ (some '\n' = some '-') := by decide
          simp only [ite_run, hne, if_false, if_true, pure_run, Res.ok.injEq] at h2
          exact ⟨0, by omega, by simp [h2.2.2]⟩
        · simp [hd, hd2] at h2

theorem endLoop_inv :
    ∀ (n : Nat) {lv lv1 : LevelDesc} {s s1 : List Char} {a : Unit},
      endLoop n lv s = .ok a lv1 s1 →
      s = (List.replicate n ['+', '-', '-', '-']).flatten ++ s1 := by
  intro n
  induction n with
  | zero =>
    intro lv lv1 s s1 a h
    simp only [endLoop, pure_run, Res.ok.injEq] at h
    simp [h.2.2]
  | succ n ih =>
    intro lv lv1 s s1 a h
    unfold endLoop at h
    obtain ⟨_, l1, t1, he1, h1⟩ := bind_ok_inv h
    obtain ⟨_, l2, t2, he2, h2⟩ := bind_ok_inv h1
    obtain ⟨_, l3, t3, he3, h3⟩ := bind_ok_inv h2
    obtain ⟨_, l4, t4, he4, h4⟩ := bind_ok_inv h3
    have e1 := EXPECT_CHAR_inv he1
    have e2 := EXPECT_CHAR_inv he2
    have e3 := EXPECT_CHAR_inv he3
    have e4 := EXPECT_CHAR_inv he4
    have e5 := ih h4
    rw [e1, e2, e3, e4, e5]
    simp [List.replicate_succ]

theorem endLine_inv {w : Nat} {lv lv1 : LevelDesc} {s s1 : List Char} {a : Unit}
    (h : endLine w lv s = .ok a lv1 s1) : s = borderLine w ++ s1 := by
  unfold endLine at h
  obtain ⟨_, l1, t1, hl, h1⟩ := bind_ok_inv h
  have e1 := endLoop_inv _ hl
  have e2 := EXPECT_CHAR_inv h1
  rw [e1, e2]
  simp [borderLine]

theorem readBody_inv {filesize : Nat} {lv lv1 : LevelDesc} {s s1 : List Char} {a : Unit}
    (h : readBody filesize lv s = .ok a lv1 s1) :
    ∃ (w : Nat) (rows : List RowData) (fin : RowData),
      1 ≤ w ∧ 1 ≤ inferredHeight filesize w ∧ rows.length = inferredHeight filesize w - 1 ∧
      (∀ rd ∈ rows, rd.ok w) ∧ fin.ok w ∧
      s = (List.replicate w ['+', '-', '-', '-']).flatten ++ '+' :: '\n' ::
            (rowDataText rows ++ (fin.cellLine ++ '\n' :: (borderLine w ++ s1))) := by
  unfold readBody at h
  obtain ⟨w, l1, t1, hf, h1⟩ := bind_ok_inv h
  obtain ⟨n, hn, rfl⟩ := firstLine_inv _ _ hf
  rw [Nat.zero_add] at hn
  subst hn
  by_cases hcond : w < 1 ∨ (filesize / (w * 4 + 2) - 1) / 2 < 1
  · simp only [ite_run, if_pos hcond, invalid_run] at h1
    cases h1
  · simp only [ite_run, if_neg hcond] at h1
    obtain ⟨_, l2, t2, hm1, h2⟩ := bind_ok_inv h1
    obtain ⟨_, l3, t3, hm2, h3⟩ := bind_ok_inv h2
    obtain ⟨y, l4, t4, hr, h4⟩ := bind_ok_inv h3
    obtain ⟨_, l5, t5, hc, h5⟩ := bind_ok_inv h4
    obtain ⟨_, l6, t6, he, h6⟩ := bind_ok_inv h5
    obtain ⟨_, l7, t7, hh, h7⟩ := bind_ok_inv h6
    simp only [modifyLevel_run, Res.ok.injEq] at hm1 hm2
    simp only [addHorLoop_run, addVerLoop_run, Res.ok.injEq] at hh h7
    obtain ⟨_, rows, hrl, hok, e1⟩ := rowLoop_inv _ hr
    obtain ⟨cells, last, hlen, hmk, hlast, e2⟩ := cellRow_inv hc
    have e3 := endLine_inv he
    refine ⟨w, rows, ⟨cells, last, List.replicate w false⟩, by omega, ?_, hrl, hok,
      ⟨hlen, by simp, hmk, hlast⟩, ?_⟩
    · unfold inferredHeight
      omega
    · rw [hm1.2.2, hm2.2.2, e1, e2, e3, hh.2.2, h7.2.2]
      simp [RowData.cellLine]

/-- When the first line has been read, the file holds at least the `w*4+2` bytes of that
line: the subtraction `filesize / (w*4+2) - 1` on `size_t` does not wrap. -/
theorem firstLine_quotient_pos (t : List Char) (lv lv1 : LevelDesc) (s1 : List Char) (w : Nat)
    (h : firstLine (t.length + 1) 0 lv t = .ok w lv1 s1) : 1 ≤ t.length / (w * 4 + 2) := by
  obtain ⟨n, hn, ht⟩ := firstLine_inv _ _ h
  have hlen := congrArg List.length ht
  simp only [List.length_append, segs_length, List.length_cons] at hlen
  rw [Nat.zero_add] at hn
  subst hn
  exact (Nat.one_le_div_iff (by omega)).2 (by omega)

/-! ## From row data to a drawing -/

theorem map_getD_range {α : Type} (l : List α) (d : α) (n : Nat) (hn : n ≤ l.length) :
    (List.range n).map (fun i => l.getD i d) = l.take n := by
  apply List.ext_getElem
  · simp [hn]
  · intro i h1 h2
    simp only [List.length_take, lt_inf_iff] at h2
    simp [List.getD_eq_getElem, h2.2]

theorem flatMap_getD_range {α β : Type} (l : List α) (d : α) (F : α → List β) (n : Nat)
    (hn : n ≤ l.length) :
    (List.range n).flatMap (fun i => F (l.getD i d)) = (l.take n).flatMap F := by
  rw [← map_getD_range l d n hn, List.flatMap_map]

theorem cellLine_gridOfRows (W H : Nat) (R : List RowData) (r : Nat)
    (hlen : (R.getD r RowData.blank).cells.length = W - 1) :
    cellLine (gridOfRows W H R) r = (R.getD r RowData.blank).cellLine := by
  have e1 : (List.range (W - 1)).flatMap (cellText (gridOfRows W H R) r)
      = (List.range (W - 1)).flatMap
          (fun c => cellChunk ((R.getD r RowData.blank).cells.getD c (' ', false))) := by
    apply List.flatMap_congr
    intro c hc
    have hc1 : c < W - 1 := List.mem_range.1 hc
    simp [cellText, cellChunk, gridOfRows, hc1]
  have e2 := flatMap_getD_range (R.getD r RowData.blank).cells (' ', false) cellChunk (W - 1)
    (by omega)
  rw [← hlen, List.take_length] at e2
  rw [← hlen] at e1
  simp only [cellLine, RowData.cellLine, gridOfRows, ← hlen, lt_irrefl, if_false]
  simp only [gridOfRows, ← hlen] at e1
  rw [e1, e2]

theorem wallLine_gridOfRows (W H : Nat) (R : List RowData) (r : Nat)
    (hlen : (R.getD r RowData.blank).walls.length = W) :
    wallLine (gridOfRows W H R) r = (R.getD r RowData.blank).wallLine := by
  have e1 : (List.range W).flatMap (wallText (gridOfRows W H R) r)
      = (List.range W).flatMap
          (fun c => wallChunk ((R.getD r RowData.blank).walls.getD c false)) := rfl
  have e2 := flatMap_getD_range (R.getD r RowData.blank).walls false wallChunk W (by omega)
  rw [← hlen, List.take_length, hlen] at e2
  have e3 : wallLine (gridOfRows W H R) r
      = (List.range W).flatMap (wallText (gridOfRows W H R) r) ++ ['+'] := rfl
  rw [e3, e1, e2, RowData.wallLine]

theorem rowsText_gridOfRows (W H : Nat) (R : List RowData) (n : Nat) (hn : n ≤ R.length)
    (hok : ∀ r, r < n → (R.getD r RowData.blank).ok W) :
    rowsText (gridOfRows W H R) (List.range n) = rowDataText (R.take n) := by
  have e1 : rowsText (gridOfRows W H R) (List.range n)
      = (List.range n).flatMap (fun r =>
          (fun rd : RowData => rd.cellLine ++ '\n' :: (rd.wallLine ++ ['\n']))
            (R.getD r RowData.blank)) := by
    apply List.flatMap_congr
    intro r hr
    have h := hok r (List.mem_range.1 hr)
    simp [rowPair, cellLine_gridOfRows W H R r h.1, wallLine_gridOfRows W H R r h.2.1]
  rw [e1]
  exact flatMap_getD_range R RowData.blank
    (fun rd : RowData => rd.cellLine ++ '\n' :: (rd.wallLine ++ ['\n'])) n hn

theorem gridOfRows_wf (W H : Nat) (R : List RowData) (hW : 1 ≤ W) (hH : 1 ≤ H)
    (hlen : R.length = H) (hok : ∀ rd ∈ R, rd.ok W) : (gridOfRows W H R).WellFormed := by
  refine ⟨hW, hH, ?_⟩
  intro r c hr hc
  have hr1 : r < R.length := by rw [hlen]; exact hr
  have hrd : (R.getD r RowData.blank).ok W := by
    rw [List.getD_eq_getElem R _ hr1]
    exact hok _ (List.getElem_mem hr1)
  obtain ⟨h1, _, h3, h4⟩ := hrd
  by_cases hc1 : c < W - 1
  · have hc2 : c < (R.getD r RowData.blank).cells.length := by rw [h1]; exact hc1
    simp only [gridOfRows, hc1, if_true]
    rw [List.getD_eq_getElem _ _ hc2]
    exact h3 _ (List.getElem_mem hc2)
  · simp only [gridOfRows, hc1, if_false]
    exact h4

/-- The shape of an accepted input: it starts with the body of a well-formed drawing
whose height is the one inferred from the file size. -/
theorem readBody_shape {filesize : Nat} {lv lv1 : LevelDesc} {s s1 : List Char} {a : Unit}
    (h : readBody filesize lv s = .ok a lv1 s1) :
    ∃ g : Grid, g.WellFormed ∧ s = renderBody g ++ s1 ∧ inferredHeight filesize g.W = g.H := by
  obtain ⟨w, rows, fin, hw, hh, hrl, hok, hfin, rfl⟩ := readBody_inv h
  have hlen : (rows ++ [fin]).length = inferredHeight filesize w := by
    simp only [List.length_append, hrl, List.length_singleton]
    omega
  have hall : ∀ rd ∈ rows ++ [fin], rd.ok w := by
    intro rd hrd
    rcases List.mem_append.1 hrd with h1 | h1
    · exact hok rd h1
    · rw [List.mem_singleton.1 h1]
      exact hfin
  have hget : ∀ r, r < (rows ++ [fin]).length → ((rows ++ [fin]).getD r RowData.blank).ok w := by
    intro r hr
    rw [List.getD_eq_getElem _ _ hr]
    exact hall _ (List.getElem_mem hr)
  have hlast : (rows ++ [fin]).getD (inferredHeight filesize w - 1) RowData.blank = fin := by
    rw [List.getD_append_right _ _ _ _ (by omega), hrl]
    simp
  refine ⟨gridOfRows w (inferredHeight filesize w) (rows ++ [fin]),
    gridOfRows_wf w _ _ hw hh hlen hall, ?_, rfl⟩
  have e1 := rowsText_gridOfRows w (inferredHeight filesize w) (rows ++ [fin])
    (inferredHeight filesize w - 1) (by omega) (fun r hr => hget r (by omega))
  rw [List.take_left' hrl] at e1
  have e2 := cellLine_gridOfRows w (inferredHeight filesize w) (rows ++ [fin])
    (inferredHeight filesize w - 1) (by rw [hlast]; exact hfin.1)
  rw [hlast] at e2
  have e3 := renderBody_unfold (gridOfRows w (inferredHeight filesize w) (rows ++ [fin])) s1
  rw [← List.range_eq_range'] at e3
  change _ = (List.replicate w ['+', '-', '-', '-']).flatten ++ '+' :: '\n' ::
    (rowsText (gridOfRows w (inferredHeight filesize w) (rows ++ [fin]))
        (List.range (inferredHeight filesize w - 1)) ++
      (cellLine (gridOfRows w (inferredHeight filesize w) (rows ++ [fin]))
          (inferredHeight filesize w - 1) ++ '\n' :: (borderLine w ++ s1))) at e3
  rw [e3, e1, e2]

/-- Every input that `ReadLevelDesc` accepts starts with the body of a well-formed drawing
whose height is the one inferred from the file size, and the level returned is the level
of that drawing. -/
theorem ReadLevelDesc_returned {t : List Char} {lv : LevelDesc}
    (h : ReadLevelDesc (some t) = .returned lv) :
    ∃ (g : Grid) (rest : List Char), g.WellFormed ∧ t = renderBody g ++ rest ∧
      inferredHeight t.length g.W = g.H ∧ lv = levelOf g := by
  cases hb : readBody t.length LevelDesc.init t with
  | ok a lv1 s1 =>
    obtain ⟨g, hg, ht, hs⟩ := readBody_shape hb
    refine ⟨g, s1, hg, ht, hs, ?_⟩
    have h2 := ReadLevelDesc_body g hg s1 (by rw [← ht]; exact hs)
    rw [← ht, h] at h2
    injection h2
  | invalid l1 => simp [ReadLevelDesc, hb] at h
  | outOfFuel => simp [ReadLevelDesc, hb] at h

/-! ## The bound on the first-line loop is never used up -/

theorem NoFuel.bind {α β : Type} {p : P α} {f : α → P β} (hp : NoFuel p)
    (hf : ∀ a, NoFuel (f a)) : NoFuel (p >>= f) := by
  intro lv s
  rw [bind_run]
  cases h : p lv s with
  | ok a l1 s1 => exact hf a l1 s1
  | invalid l1 => simp
  | outOfFuel => exact absurd h (hp lv s)

theorem NoFuel.pure {α : Type} (a : α) : NoFuel (pure a : P α) := by
  intro lv s
  simp

theorem NoFuel.invalid {α : Type} : NoFuel (INVALID_FORMAT : P α) := by
  intro lv s
  simp

theorem NoFuel.ite {α : Type} (c : Prop) [Decidable c] {p q : P α} (hp : NoFuel p)
    (hq : NoFuel q) : NoFuel (if c then p else q) := by
  split
  · exact hp
  · exact hq

theorem NoFuel.get : NoFuel get := by
  intro lv s
  cases s <;> simp

theorem NoFuel.modifyLevel (f : LevelDesc → LevelDesc) : NoFuel (modifyLevel f) := by
  intro lv s
  simp

theorem NoFuel.expect (c : Char) : NoFuel (EXPECT_CHAR c) :=
  NoFuel.bind NoFuel.get (fun _ => NoFuel.ite _ NoFuel.invalid (NoFuel.pure ()))

theorem NoFuel.useLetter (c : Option Char) (x y : Nat) : NoFuel (UseLetterLambda c x y) := by
  intro lv s
  cases c with
  | none => simp [UseLetterLambda_none]
  | some m => simp [UseLetterLambda_some]

theorem NoFuel.cellBody (x y : Nat) : NoFuel (cellBody x y) := by
  unfold Nikman.cellBody
  refine NoFuel.bind NoFuel.get (fun c => NoFuel.bind (NoFuel.useLetter c x y) (fun used =>
    NoFuel.bind (NoFuel.ite _ NoFuel.invalid (NoFuel.pure ())) (fun _ =>
    NoFuel.bind (NoFuel.expect ' ') (fun _ => NoFuel.bind NoFuel.get (fun c2 =>
    NoFuel.bind ?_ (fun _ => NoFuel.expect ' '))))))
  exact NoFuel.ite _ (NoFuel.modifyLevel _) (NoFuel.ite _ NoFuel.invalid (NoFuel.pure ()))

theorem NoFuel.cellLoop (y : Nat) : ∀ n x, NoFuel (cellLoop y n x) := by
  intro n
  induction n with
  | zero => intro x; exact NoFuel.pure x
  | succ n ih => intro x; exact NoFuel.bind (NoFuel.cellBody x y) (fun _ => ih (x + 1))

theorem NoFuel.cellRow (w y : Nat) : NoFuel (cellRow w y) := by
  unfold Nikman.cellRow
  exact NoFuel.bind (NoFuel.expect '|') (fun _ => NoFuel.bind (NoFuel.expect ' ') (fun _ =>
    NoFuel.bind (NoFuel.cellLoop y _ 0) (fun x => NoFuel.bind NoFuel.get (fun c =>
    NoFuel.bind (NoFuel.useLetter c x y) (fun used =>
    NoFuel.bind (NoFuel.ite _ NoFuel.invalid (NoFuel.pure ())) (fun _ =>
    NoFuel.bind (NoFuel.expect ' ') (fun _ => NoFuel.bind (NoFuel.expect '|') (fun _ =>
    NoFuel.expect '\n'))))))))

theorem NoFuel.wallBody (x y : Nat) : NoFuel (wallBody x y) := by
  unfold Nikman.wallBody
  exact NoFuel.bind (NoFuel.expect '+') (fun _ => NoFuel.bind NoFuel.get (fun c =>
    NoFuel.ite _ (NoFuel.bind (NoFuel.expect ' ') (fun _ => NoFuel.expect ' '))
      (NoFuel.ite _ (NoFuel.bind (NoFuel.expect '-') (fun _ =>
        NoFuel.bind (NoFuel.expect '-') (fun _ => NoFuel.modifyLevel _))) NoFuel.invalid)))

theorem NoFuel.wallLoop (y : Nat) : ∀ n x, NoFuel (wallLoop y n x) := by
  intro n
  induction n with
  | zero => intro x; exact NoFuel.pure ()
  | succ n ih => intro x; exact NoFuel.bind (NoFuel.wallBody x y) (fun _ => ih (x + 1))

theorem NoFuel.wallRow (w y : Nat) : NoFuel (wallRow w y) :=
  NoFuel.bind (NoFuel.wallLoop y w 0) (fun _ => NoFuel.bind (NoFuel.expect '+') (fun _ =>
    NoFuel.expect '\n'))

theorem NoFuel.rowLoop (w : Nat) : ∀ y, NoFuel (rowLoop w y) := by
  intro y
  induction y with
  | zero => exact NoFuel.pure 0
  | succ y ih =>
    exact NoFuel.bind (NoFuel.cellRow w (y + 1)) (fun _ =>
      NoFuel.bind (NoFuel.wallRow w (y + 1)) (fun _ => ih))

theorem NoFuel.endLoop : ∀ n, NoFuel (endLoop n) := by
  intro n
  induction n with
  | zero => exact NoFuel.pure ()
  | succ n ih =>
    exact NoFuel.bind (NoFuel.expect '+') (fun _ => NoFuel.bind (NoFuel.expect '-') (fun _ =>
      NoFuel.bind (NoFuel.expect '-') (fun _ => NoFuel.bind (NoFuel.expect '-') (fun _ => ih))))

theorem NoFuel.endLine (w : Nat) : NoFuel (endLine w) :=
  NoFuel.bind (NoFuel.endLoop w) (fun _ => NoFuel.expect '+')

theorem NoFuel.addHorLoop (h n x : Nat) : NoFuel (addHorLoop h n x) := by
  intro lv s
  simp [addHorLoop_run]

theorem NoFuel.addVerLoop (w n y : Nat) : NoFuel (addVerLoop w n y) := by
  intro lv s
  simp [addVerLoop_run]

/-- The first-line loop stops before its bound when the bound exceeds the number of
unread bytes: every iteration that goes on has read four of them. -/
theorem firstLine_fuel :
    ∀ (fuel w : Nat) (lv : LevelDesc) (s : List Char), s.length < fuel →
      firstLine fuel w lv s ≠ .outOfFuel := by
  intro fuel
  induction fuel with
  | zero => intro w lv s h; omega
  | succ fuel ih =>
    intro w lv s h
    rcases s with _ | ⟨a, _ | ⟨b, _ | ⟨c, _ | ⟨d, s⟩⟩⟩⟩
    · simp [firstLine]
    · by_cases ha : a = '+' <;> simp [firstLine, ha]
    · by_cases ha : a = '+' <;> by_cases hb : b = '-' <;> by_cases hb2 : b = '\n' <;>
        simp [firstLine, ha, hb, hb2]
    · by_cases ha : a = '+' <;> by_cases hb : b = '-' <;> by_cases hb2 : b = '\n' <;>
        by_cases hc : c = '-' <;> simp [firstLine, ha, hb, hb2, hc]
    · have hi := ih (w + 1) lv s (by simp at h; omega)
      by_cases ha : a = '+' <;> by_cases hb : b = '-' <;> by_cases hb2 : b = '\n' <;>
        by_cases hc : c = '-' <;> by_cases hd : d = '-' <;>
        simp [firstLine, ha, hb, hb2, hc, hd, hi]

theorem readBody_fuel (t : List Char) (lv : LevelDesc) :
    readBody t.length lv t ≠ .outOfFuel := by
  unfold readBody
  rw [bind_run]
  cases h : firstLine (t.length + 1) 0 lv t with
  | outOfFuel => exact absurd h (firstLine_fuel _ _ _ _ (by omega))
  | invalid l1 => simp
  | ok w l1 s1 =>
    refine NoFuel.ite _ NoFuel.invalid ?_ l1 s1
    exact NoFuel.bind (NoFuel.modifyLevel _) (fun _ => NoFuel.bind (NoFuel.modifyLevel _)
      (fun _ => NoFuel.bind (NoFuel.rowLoop _ _) (fun y => NoFuel.bind (NoFuel.cellRow _ y)
      (fun _ => NoFuel.bind (NoFuel.endLine _) (fun _ => NoFuel.bind (NoFuel.addHorLoop _ _ _)
      (fun _ => NoFuel.addVerLoop _ _ _))))))

/-- A call of `ReadLevelDesc` on an opened file returns a level or reports an invalid
format. -/
theorem ReadLevelDesc_cases (t : List Char) :
    (∃ lv, ReadLevelDesc (some t) = .returned lv) ∨
    (∃ lv, ReadLevelDesc (some t) = .invalidFormat lv) := by
  cases h : readBody t.length LevelDesc.init t with
  | ok a lv1 s1 => exact Or.inl ⟨lv1, by simp [ReadLevelDesc, h]⟩
  | invalid l1 => exact Or.inr ⟨l1, by simp [ReadLevelDesc, h]⟩
  | outOfFuel => exact absurd h (readBody_fuel t _)

/-! ## Changing one byte of a well-formed text -/

theorem renderBody_start (g : Grid) (rest : List Char) :
    ∃ u, renderBody g ++ rest
      = (List.replicate g.W ['+', '-', '-', '-']).flatten ++ '+' :: '\n' :: '|' :: u := by
  rw [renderBody_unfold]
  cases hH : g.H - 1 with
  | zero => exact ⟨_, by simp [rowsText, cellLine]; rfl⟩
  | succ k =>
    rw [List.range'_succ, rowsText_cons]
    exact ⟨_, by simp [cellLine]; rfl⟩

/-- Two texts that differ in at most one byte and both start with a border line followed
by `|` have border lines of the same number of segments. -/
theorem firstLine_unique :
    ∀ (W W2 p : Nat) (c : Char) (u u2 : List Char),
      ((List.replicate W ['+', '-', '-', '-']).flatten ++ '+' :: '\n' :: '|' :: u).set p c
        = (List.replicate W2 ['+', '-', '-', '-']).flatten ++ '+' :: '\n' :: '|' :: u2 →
      W = W2 := by
  intro W
  induction W with
  | zero =>
    intro W2 p c u u2 h
    cases W2 with
    | zero => rfl
    | succ j =>
      exfalso
      rcases p with _ | _ | p <;> simp [List.replicate_succ] at h
  | succ k ih =>
    intro W2 p c u u2 h
    cases W2 with
    | zero =>
      exfalso
      rcases p with _ | _ | p <;> simp [List.replicate_succ] at h
    | succ j =>
      have key : ∃ q, ((List.replicate k ['+', '-', '-', '-']).flatten
            ++ '+' :: '\n' :: '|' :: u).set q c
          = (List.replicate j ['+', '-', '-', '-']).flatten ++ '+' :: '\n' :: '|' :: u2 := by
        rcases p with _ | _ | _ | _ | p
        all_goals simp only [List.replicate_succ, List.flatten_cons, List.cons_append,
          List.nil_append, List.set_cons_zero, List.set_cons_succ, List.cons.injEq] at h
        · exact ⟨_, by rw [List.set_eq_of_length_le (le_refl _)]; exact h.2.2.2.2⟩
        · exact ⟨_, by rw [List.set_eq_of_length_le (le_refl _)]; exact h.2.2.2.2⟩
        · exact ⟨_, by rw [List.set_eq_of_length_le (le_refl _)]; exact h.2.2.2.2⟩
        · exact ⟨_, by rw [List.set_eq_of_length_le (le_refl _)]; exact h.2.2.2.2⟩
        · exact ⟨p, h.2.2.2.2⟩
      obtain ⟨q, hq⟩ := key
      rw [ih j q c u u2 hq]

theorem getLast?_set_of_lt {α : Type} (l : List α) (p : Nat) (c : α) (hp : p + 1 < l.length) :
    (l.set p c).getLast? = l.getLast? := by
  rw [List.getLast?_eq_getElem?, List.getLast?_eq_getElem?, List.length_set, List.getElem?_set]
  have : p ≠ l.length - 1 := by omega
  simp [this]

/-- Changing one byte of a well-formed text, other than its last byte, gives a text that
`ReadLevelDesc` accepts only if it is again a well-formed text of the same size. -/
theorem set_accepted (g : Grid) (hg : g.WellFormed) (p : Nat) (c : Char)
    (hp : p + 1 < (render g).length) (lv : LevelDesc)
    (h : ReadLevelDesc (some ((render g).set p c)) = .returned lv) :
    ∃ g2 : Grid, g2.WellFormed ∧ g2.W = g.W ∧ g2.H = g.H ∧ render g2 = (render g).set p c := by
  obtain ⟨g2, rest, hg2, ht, hs, _⟩ := ReadLevelDesc_returned h
  obtain ⟨u, hu⟩ := renderBody_start g ['\n']
  obtain ⟨u2, hu2⟩ := renderBody_start g2 rest
  have hW : g.W = g2.W := by
    apply firstLine_unique g.W g2.W p c u u2
    rw [← hu, ← hu2, ← ht]
    rfl
  have hH : g2.H = g.H := by
    rw [← hs, List.length_set, ← hW]
    exact inferredHeight_render g hg.1 hg.2.1
  have hlen : rest.length = 1 := by
    have h1 := renderBody_length g2 hg2.1 hg2.2.1
    have h2 := render_length g hg.1 hg.2.1
    have h3 := congrArg List.length ht
    rw [List.length_set, List.length_append, h2] at h3
    rw [hH, ← hW] at h1
    omega
  obtain ⟨x, rfl⟩ := List.length_eq_one.1 hlen
  have hx : x = '\n' := by
    have h1 := congrArg List.getLast? ht
    rw [getLast?_set_of_lt _ _ _ hp] at h1
    simp [render] at h1
    exact h1.symm
  refine ⟨g2, hg2, hW.symm, hH, ?_⟩
  rw [ht, hx]
  rfl

/-! ## The text of a drawing with one marker replaced -/

theorem set_flatMap_range {β : Type} (f : Nat → List β) (k : Nat)
    (hk : ∀ a, (f a).length = k) (b : β) :
    ∀ n i j, i < n → j < k →
      ((List.range n).flatMap f).set (i * k + j) b
        = (List.range n).flatMap (fun a => if a = i then (f a).set j b else f a) := by
  intro n
  induction n with
  | zero => intro i j hi; omega
  | succ n ih =>
    intro i j hi hj
    have hlen : ((List.range n).flatMap f).length = n * k := by
      rw [flatMap_length_const _ f k (fun a _ => hk a), List.length_range]
    rw [List.range_succ, List.flatMap_append, List.flatMap_append, List.flatMap_singleton,
      List.flatMap_singleton]
    by_cases hin : i < n
    · have hlt : i * k + j < n * k := by
        have : (i + 1) * k ≤ n * k := Nat.mul_le_mul_right k hin
        have e : (i + 1) * k = i * k + k := by ring
        omega
      rw [List.set_append_left _ _ (by rw [hlen]; exact hlt), ih i j hin hj]
      have hne : n ≠ i := by omega
      simp [hne]
    · have e : i = n := by omega
      subst e
      rw [List.set_append_right _ _ (by rw [hlen]; omega), hlen]
      have e2 : i * k + j - i * k = j := by omega
      rw [e2]
      simp only [if_true]
      congr 1
      apply List.flatMap_congr
      intro a ha
      have : a ≠ i := by
        have := List.mem_range.1 ha
        omega
      simp [this]

theorem cellText_setCell (g : Grid) (r c : Nat) (b : Char) (r1 c1 : Nat) :
    cellText (g.setCell r c b) r1 c1
      = if r1 = r ∧ c1 = c then (cellText g r1 c1).set 0 b else cellText g r1 c1 := by
  by_cases h : r1 = r ∧ c1 = c <;> simp [cellText, Grid.setCell, h]

theorem cellLine_setCell_other (g : Grid) (r c : Nat) (b : Char) (r1 : Nat) (h : r1 ≠ r) :
    cellLine (g.setCell r c b) r1 = cellLine g r1 := by
  have e1 : (List.range (g.W - 1)).flatMap (cellText (g.setCell r c b) r1)
      = (List.range (g.W - 1)).flatMap (cellText g r1) := by
    apply List.flatMap_congr
    intro c1 _
    simp [cellText_setCell, h]
  have e2 : (g.setCell r c b).cell r1 (g.W - 1) = g.cell r1 (g.W - 1) := by
    simp [Grid.setCell, h]
  have e3 : cellLine (g.setCell r c b) r1
      = ['|', ' '] ++ (List.range (g.W - 1)).flatMap (cellText (g.setCell r c b) r1)
          ++ [(g.setCell r c b).cell r1 (g.W - 1), ' ', '|'] := rfl
  rw [e3, e1, e2, cellLine]

theorem cellLine_setCell_same (g : Grid) (r c : Nat) (b : Char) (hc : c < g.W) :
    cellLine (g.setCell r c b) r = (cellLine g r).set (2 + 4 * c) b := by
  have e3 : cellLine (g.setCell r c b) r
      = ['|', ' '] ++ (List.range (g.W - 1)).flatMap (cellText (g.setCell r c b) r)
          ++ [(g.setCell r c b).cell r (g.W - 1), ' ', '|'] := rfl
  have hlen : ((List.range (g.W - 1)).flatMap (cellText g r)).length = (g.W - 1) * 4 := by
    rw [flatMap_length_const _ _ 4 (fun a _ => by simp [cellText]), List.length_range]
  by_cases hc1 : c < g.W - 1
  · have e1 := set_flatMap_range (cellText g r) 4 (fun a => by simp [cellText]) b (g.W - 1) c 0
      hc1 (by omega)
    have e1b : (List.range (g.W - 1)).flatMap (cellText (g.setCell r c b) r)
        = ((List.range (g.W - 1)).flatMap (cellText g r)).set (c * 4 + 0) b := by
      rw [e1]
      apply List.flatMap_congr
      intro c1 _
      simp [cellText_setCell]
    have e2 : (g.setCell r c b).cell r (g.W - 1) = g.cell r (g.W - 1) := by
      have : g.W - 1 ≠ c := by omega
      simp [Grid.setCell, this]
    rw [e3, e1b, e2, cellLine, List.append_assoc, List.append_assoc,
      List.set_append_right _ _ (by simp), List.set_append_left _ _ (by rw [hlen]; simp; omega)]
    congr 3
    simp
    omega
  · have hcW : c = g.W - 1 := by omega
    have e1 : (List.range (g.W - 1)).flatMap (cellText (g.setCell r c b) r)
        = (List.range (g.W - 1)).flatMap (cellText g r) := by
      apply List.flatMap_congr
      intro c1 hc1m
      have : c1 ≠ c := by
        have := List.mem_range.1 hc1m
        omega
      simp [cellText_setCell, this]
    have e2 : (g.setCell r c b).cell r (g.W - 1) = b := by
      simp [Grid.setCell, hcW]
    rw [e3, e1, e2, cellLine, List.append_assoc, List.append_assoc,
      List.set_append_right _ _ (by simp),
      List.set_append_right _ _ (by rw [hlen]; simp; omega), hlen]
    have e4 : 2 + 4 * c - [('|' : Char), ' '].length - (g.W - 1) * 4 = 0 := by
      simp
      omega
    rw [e4]
    rfl

theorem rowPair_length (g : Grid) (r : Nat) (hW : 1 ≤ g.W) :
    (rowPair g r).length = 2 * (4 * g.W + 2) := by
  simp [rowPair, cellLine_length g r hW, wallLine_length]
  omega

theorem rowPair_setCell (g : Grid) (r c : Nat) (b : Char) (hW : 1 ≤ g.W) (hc : c < g.W)
    (r1 : Nat) :
    rowPair (g.setCell r c b) r1
      = if r1 = r then (rowPair g r1).set (2 + 4 * c) b else rowPair g r1 := by
  have ew : wallLine (g.setCell r c b) r1 = wallLine g r1 := rfl
  by_cases h : r1 = r
  · subst h
    simp only [if_true, rowPair, ew, cellLine_setCell_same g r1 c b hc, List.append_assoc]
    rw [List.set_append_left _ _ (by rw [cellLine_length g r1 hW]; omega)]
  · simp only [h, if_false, rowPair, ew, cellLine_setCell_other g r c b r1 h]

/-- The text of the drawing with the marker of column `c` of cell row `r` replaced by `b`
is the text of the drawing with the byte at the index of that marker replaced by `b`. -/
theorem render_setCell (g : Grid) (hW : 1 ≤ g.W) (r c : Nat) (hr : r < g.H) (hc : c < g.W)
    (b : Char) :
    render (g.setCell r c b) = (render g).set (markerIndex g.W r c) b := by
  have e1 : render (g.setCell r c b)
      = (borderLine g.W ++ ['\n']) ++ ((List.range (g.H - 1)).flatMap (rowPair (g.setCell r c b))
          ++ (cellLine (g.setCell r c b) (g.H - 1) ++ (['\n'] ++ borderLine g.W ++ ['\n']))) := by
    simp only [render, renderBody, List.append_assoc]
    rfl
  have e2 : render g
      = (borderLine g.W ++ ['\n']) ++ ((List.range (g.H - 1)).flatMap (rowPair g)
          ++ (cellLine g (g.H - 1) ++ (['\n'] ++ borderLine g.W ++ ['\n']))) := by
    simp only [render, renderBody, List.append_assoc]
  have hlenA : (borderLine g.W ++ ['\n']).length = 4 * g.W + 2 := by
    simp [borderLine_length]
  have hlenB : ((List.range (g.H - 1)).flatMap (rowPair g)).length
      = (g.H - 1) * (2 * (4 * g.W + 2)) := by
    rw [flatMap_length_const _ _ _ (fun a _ => rowPair_length g a hW), List.length_range]
  rw [e1, e2, markerIndex, List.set_append_right _ _ (by rw [hlenA]; omega), hlenA]
  have e3 : 4 * g.W + 2 + r * (2 * (4 * g.W + 2)) + (2 + 4 * c) - (4 * g.W + 2)
      = r * (2 * (4 * g.W + 2)) + (2 + 4 * c) := by omega
  rw [e3]
  congr 1
  by_cases hr1 : r < g.H - 1
  · have hB := set_flatMap_range (rowPair g) (2 * (4 * g.W + 2))
      (fun a => rowPair_length g a hW) b (g.H - 1) r (2 + 4 * c) hr1 (by omega)
    have hlt : r * (2 * (4 * g.W + 2)) + (2 + 4 * c) < (g.H - 1) * (2 * (4 * g.W + 2)) := by
      have : (r + 1) * (2 * (4 * g.W + 2)) ≤ (g.H - 1) * (2 * (4 * g.W + 2)) :=
        Nat.mul_le_mul_right _ hr1
      have e : (r + 1) * (2 * (4 * g.W + 2)) = r * (2 * (4 * g.W + 2)) + 2 * (4 * g.W + 2) := by
        ring
      omega
    rw [List.set_append_left _ _ (by rw [hlenB]; exact hlt), hB,
      cellLine_setCell_other g r c b (g.H - 1) (by omega)]
    congr 1
    apply List.flatMap_congr
    intro a _
    exact rowPair_setCell g r c b hW hc a
  · have hrH : r = g.H - 1 := by omega
    have eB : (List.range (g.H - 1)).flatMap (rowPair (g.setCell r c b))
        = (List.range (g.H - 1)).flatMap (rowPair g) := by
      apply List.flatMap_congr
      intro a ha
      have : a ≠ r := by
        have := List.mem_range.1 ha
        omega
      simp [rowPair_setCell g r c b hW hc a, this]
    rw [eB, List.set_append_right _ _ (by rw [hlenB, hrH]; omega), hlenB, ← hrH]
    rw [Nat.add_sub_cancel_left, cellLine_setCell_same g r c b hc,
      List.set_append_left _ _ (by rw [cellLine_length g r hW]; omega)]

theorem markerIndex_lt (g : Grid) (hW : 1 ≤ g.W) (r c : Nat) (hr : r < g.H) (hc : c < g.W) :
    markerIndex g.W r c + 1 < (render g).length := by
  rw [render_length g hW (by omega), markerIndex]
  have h1 : (r + 1) * (2 * (4 * g.W + 2)) ≤ g.H * (2 * (4 * g.W + 2)) :=
    Nat.mul_le_mul_right _ hr
  have e1 : (r + 1) * (2 * (4 * g.W + 2)) = r * (2 * (4 * g.W + 2)) + 2 * (4 * g.W + 2) := by
    ring
  have e2 : (2 * g.H + 1) * (4 * g.W + 2) = g.H * (2 * (4 * g.W + 2)) + (4 * g.W + 2) := by
    ring
  omega

theorem setCell_self (g : Grid) (r c : Nat) : g.setCell r c (g.cell r c) = g := by
  cases g with
  | mk W H cell vwall hwall =>
    simp only [Grid.setCell, Grid.mk.injEq, true_and, and_true]
    funext r1 c1
    by_cases h : r1 = r ∧ c1 = c
    · simp [h]
    · simp [h]

/-- The byte of a level text at the index of a marker is that marker. -/
theorem render_marker (g : Grid) (hW : 1 ≤ g.W) (r c : Nat) (hr : r < g.H) (hc : c < g.W) :
    (render g)[markerIndex g.W r c]? = some (g.cell r c) := by
  have h := render_setCell g hW r c hr hc (g.cell r c)
  rw [setCell_self] at h
  have hlt := markerIndex_lt g hW r c hr hc
  rw [h, List.getElem?_set]
  simp only [if_true]
  rw [if_pos (by omega)]

/-! ## Membership in the lists of a level -/

theorem mem_marks (g : Grid) (ch : Char) (x y : Nat) :
    (x, y) ∈ marks g ch ↔ ∃ r, r < g.H ∧ x < g.W ∧ g.cell r x = ch ∧ y = g.H - 1 - r := by
  simp only [marks, rowMarks, List.mem_flatMap, List.mem_map, List.mem_filter, List.mem_range,
    decide_eq_true_eq, Prod.mk.injEq]
  constructor
  · rintro ⟨r, hr, c, ⟨hc, hch⟩, rfl, rfl⟩
    exact ⟨r, hr, hc, hch, rfl⟩
  · rintro ⟨r, hr, hc, hch, rfl⟩
    exact ⟨r, hr, x, ⟨hc, hch⟩, rfl, rfl⟩

theorem mem_innerVer (g : Grid) (x y : Nat) :
    (x, y) ∈ innerVer g ↔
      ∃ r c, r < g.H ∧ c < g.W - 1 ∧ g.vwall r c = true ∧ x = c + 1 ∧ y = g.H - 1 - r := by
  simp only [innerVer, rowVer, List.mem_flatMap, List.mem_map, List.mem_filter, List.mem_range,
    Prod.mk.injEq]
  constructor
  · rintro ⟨r, hr, c, ⟨hc, hv⟩, rfl, rfl⟩
    exact ⟨r, c, hr, hc, hv, rfl, rfl⟩
  · rintro ⟨r, c, hr, hc, hv, rfl, rfl⟩
    exact ⟨r, hr, c, ⟨hc, hv⟩, rfl, rfl⟩

theorem mem_innerHor (g : Grid) (x y : Nat) :
    (x, y) ∈ innerHor g ↔
      ∃ r, r < g.H - 1 ∧ x < g.W ∧ g.hwall r x = true ∧ y = g.H - 1 - r := by
  simp only [innerHor, rowHor, List.mem_flatMap, List.mem_map, List.mem_filter, List.mem_range,
    Prod.mk.injEq]
  constructor
  · rintro ⟨r, hr, c, ⟨hc, hv⟩, rfl, rfl⟩
    exact ⟨r, hr, hc, hv, rfl⟩
  · rintro ⟨r, hr, hc, hv, rfl⟩
    exact ⟨r, hr, x, ⟨hc, hv⟩, rfl, rfl⟩

theorem mem_outerVer (W H x y : Nat) :
    (x, y) ∈ outerVer W H ↔ y < H ∧ (x = 0 ∨ x = W) := by
  simp only [outerVer, List.mem_flatMap, List.mem_range, List.mem_cons, Prod.mk.injEq,
    List.mem_singleton, List.not_mem_nil, or_false]
  constructor
  · rintro ⟨a, ha, ⟨rfl, rfl⟩ | ⟨rfl, rfl⟩⟩
    · exact ⟨ha, Or.inl rfl⟩
    · exact ⟨ha, Or.inr rfl⟩
  · rintro ⟨hy, rfl | rfl⟩
    · exact ⟨y, hy, Or.inl ⟨rfl, rfl⟩⟩
    · exact ⟨y, hy, Or.inr ⟨rfl, rfl⟩⟩

theorem mem_outerHor (W H x y : Nat) :
    (x, y) ∈ outerHor W H ↔ x < W ∧ (y = 0 ∨ y = H) := by
  simp only [outerHor, List.mem_flatMap, List.mem_range, List.mem_cons, Prod.mk.injEq,
    List.mem_singleton, List.not_mem_nil, or_false]
  constructor
  · rintro ⟨a, ha, ⟨rfl, rfl⟩ | ⟨rfl, rfl⟩⟩
    · exact ⟨ha, Or.inl rfl⟩
    · exact ⟨ha, Or.inr rfl⟩
  · rintro ⟨hx, rfl | rfl⟩
    · exact ⟨x, hx, Or.inl ⟨rfl, rfl⟩⟩
    · exact ⟨x, hx, Or.inr ⟨rfl, rfl⟩⟩

theorem innerVer_length (g : Grid) : (innerVer g).length = countVer g := by
  simp only [innerVer, countVer, rowVer, List.length_flatMap, List.countP_eq_length_filter]
  congr 1
  apply List.map_congr_left
  intro r _
  simp [rowVer]

theorem innerHor_length (g : Grid) : (innerHor g).length = countHor g := by
  simp only [innerHor, countHor, rowHor, List.length_flatMap, List.countP_eq_length_filter]
  congr 1
  apply List.map_congr_left
  intro r _
  simp [rowHor]

theorem outerVer_length (W H : Nat) : (outerVer W H).length = 2 * H := by
  have h := flatMap_length_const (List.range H) (fun y => [(0, y), (W, y)]) 2 (fun _ _ => rfl)
  simp only [outerVer, h, List.length_range]
  omega

theorem outerHor_length (W H : Nat) : (outerHor W H).length = 2 * W := by
  have h := flatMap_length_const (List.range W) (fun x => [(x, 0), (x, H)]) 2 (fun _ _ => rfl)
  simp only [outerHor, h, List.length_range]
  omega

/-! ## Bounds on the entries of the level of a drawing -/

theorem borderLine_append (W : Nat) (s : List Char) :
    borderLine W ++ '\n' :: s
      = (List.replicate W ['+', '-', '-', '-']).flatten ++ '+' :: '\n' :: s := by
  simp [borderLine]

/-- A text whose first line gives degenerate dimensions is rejected at the test of the
dimensions, with the level untouched. -/
theorem ReadLevelDesc_degenerate (w : Nat) (s : List Char)
    (hdeg : w < 1 ∨ inferredHeight (borderLine w ++ '\n' :: s).length w < 1) :
    ReadLevelDesc (some (borderLine w ++ '\n' :: s)) = .invalidFormat LevelDesc.init := by
  have hlen : w < (borderLine w ++ '\n' :: s).length + 1 := by
    simp only [List.length_append, borderLine_length, List.length_cons]
    omega
  have h1 := firstLine_ok w ((borderLine w ++ '\n' :: s).length + 1) 0 LevelDesc.init s hlen
  rw [← borderLine_append, Nat.zero_add] at h1
  have hcond : w < 1 ∨ ((borderLine w ++ '\n' :: s).length / (w * 4 + 2) - 1) / 2 < 1 := hdeg
  simp only [ReadLevelDesc, readBody, bind_run, h1, ite_run, if_pos hcond, invalid_run]

theorem levelOf_ver_bound (g : Grid) (hg : g.WellFormed) :
    ∀ e ∈ (levelOf g).ver_walls, e.1 ≤ g.W ∧ e.2 < g.H := by
  obtain ⟨hW, hH, _⟩ := hg
  rintro ⟨x, y⟩ he
  simp only [levelOf, List.mem_append, mem_innerVer, mem_outerVer] at he
  rcases he with ⟨r, c, hr, hc, _, rfl, rfl⟩ | ⟨hy, rfl | rfl⟩
  · exact ⟨by omega, by omega⟩
  · exact ⟨by omega, hy⟩
  · exact ⟨le_refl _, hy⟩

theorem levelOf_hor_bound (g : Grid) (hg : g.WellFormed) :
    ∀ e ∈ (levelOf g).hor_walls, e.1 < g.W ∧ e.2 ≤ g.H := by
  obtain ⟨hW, hH, _⟩ := hg
  rintro ⟨x, y⟩ he
  simp only [levelOf, List.mem_append, mem_innerHor, mem_outerHor] at he
  rcases he with ⟨r, hr, hx, _, rfl⟩ | ⟨hx, rfl | rfl⟩
  · exact ⟨hx, by omega⟩
  · exact ⟨hx, by omega⟩
  · exact ⟨hx, le_refl _⟩

theorem marks_bound (g : Grid) (hg : g.WellFormed) (ch : Char) :
    ∀ e ∈ marks g ch, e.1 < g.W ∧ e.2 < g.H := by
  obtain ⟨hW, hH, _⟩ := hg
  rintro ⟨x, y⟩ he
  obtain ⟨r, hr, hx, _, rfl⟩ := (mem_marks g ch x y).1 he
  exact ⟨hx, by omega⟩

theorem levelOf_player_bound (g : Grid) (hg : g.WellFormed) :
    (levelOf g).player_pos.1 < g.W ∧ (levelOf g).player_pos.2 < g.H := by
  by_cases hne : marks g 'n' = []
  · simp only [levelOf, hne, List.getLast?_nil, Option.getD_none]
    exact ⟨hg.1, hg.2.1⟩
  · simp only [levelOf, List.getLast?_eq_getLast _ hne, Option.getD_some]
    exact marks_bound g hg 'n' _ (List.getLast_mem hne)

theorem inferredHeight_le (n w h : Nat) (hh : inferredHeight n w = h) (h1 : 1 ≤ h) :
    (2 * h + 1) * (4 * w + 2) ≤ n := by
  unfold inferredHeight at hh
  have e : w * 4 + 2 = 4 * w + 2 := by omega
  rw [e] at hh
  have hq : 2 * h + 1 ≤ n / (4 * w + 2) := by omega
  exact (Nat.le_div_iff_mul_le (by omega)).1 hq

/-! ## No wall is recorded twice -/

theorem nodup_flatMap_range (n : Nat) (f : Nat → List (Nat × Nat))
    (hnd : ∀ r, (f r).Nodup)
    (hkey : ∀ r1 r2 e, r1 < n → r2 < n → e ∈ f r1 → e ∈ f r2 → r1 = r2) :
    ((List.range n).flatMap f).Nodup := by
  refine List.nodup_flatMap.2 ⟨fun r _ => hnd r, ?_⟩
  refine (List.nodup_range n).pairwise_of_forall_ne ?_
  intro a ha b hb hab e hea heb
  exact hab (hkey a b e (List.mem_range.1 ha) (List.mem_range.1 hb) hea heb)

theorem innerVer_nodup (g : Grid) : (innerVer g).Nodup := by
  refine nodup_flatMap_range g.H (rowVer g) ?_ ?_
  · intro r
    refine List.Nodup.map ?_ (List.Nodup.filter _ (List.nodup_range _))
    intro a b hab
    simp only [Prod.mk.injEq, add_left_inj, and_true] at hab
    exact hab
  · rintro r1 r2 ⟨x, y⟩ h1 h2 he1 he2
    simp only [rowVer, List.mem_map, List.mem_filter, List.mem_range, Prod.mk.injEq] at he1 he2
    obtain ⟨_, _, _, hy1⟩ := he1
    obtain ⟨_, _, _, hy2⟩ := he2
    omega

theorem innerHor_nodup (g : Grid) : (innerHor g).Nodup := by
  refine nodup_flatMap_range (g.H - 1) (rowHor g) ?_ ?_
  · intro r
    refine List.Nodup.map ?_ (List.Nodup.filter _ (List.nodup_range _))
    intro a b hab
    simp only [Prod.mk.injEq, and_true] at hab
    exact hab
  · rintro r1 r2 ⟨x, y⟩ h1 h2 he1 he2
    simp only [rowHor, List.mem_map, List.mem_filter, List.mem_range, Prod.mk.injEq] at he1 he2
    obtain ⟨_, _, _, hy1⟩ := he1
    obtain ⟨_, _, _, hy2⟩ := he2
    omega

theorem outerVer_nodup (W H : Nat) (hW : 1 ≤ W) : (outerVer W H).Nodup := by
  refine nodup_flatMap_range H (fun y => [(0, y), (W, y)]) ?_ ?_
  · intro y
    have : (0 : Nat) ≠ W := by omega
    simp [this]
  · rintro r1 r2 ⟨x, y⟩ _ _ he1 he2
    simp only [List.mem_cons, Prod.mk.injEq, List.mem_singleton, List.not_mem_nil,
      or_false] at he1 he2
    rcases he1 with ⟨_, h1⟩ | ⟨_, h1⟩ <;> rcases he2 with ⟨_, h2⟩ | ⟨_, h2⟩ <;> omega

theorem outerHor_nodup (W H : Nat) (hH : 1 ≤ H) : (outerHor W H).Nodup := by
  refine nodup_flatMap_range W (fun x => [(x, 0), (x, H)]) ?_ ?_
  · intro x
    have : (0 : Nat) ≠ H := by omega
    simp [this]
  · rintro r1 r2 ⟨x, y⟩ _ _ he1 he2
    simp only [List.mem_cons, Prod.mk.injEq, List.mem_singleton, List.not_mem_nil,
      or_false] at he1 he2
    rcases he1 with ⟨h1, _⟩ | ⟨h1, _⟩ <;> rcases he2 with ⟨h2, _⟩ | ⟨h2, _⟩ <;> omega

theorem levelOf_ver_nodup (g : Grid) (hg : g.WellFormed) : (levelOf g).ver_walls.Nodup := by
  obtain ⟨hW, hH, _⟩ := hg
  refine List.nodup_append.2 ⟨innerVer_nodup g, outerVer_nodup g.W g.H hW, ?_⟩
  rintro ⟨x, y⟩ h1 h2
  obtain ⟨r, c, _, hc, _, rfl, _⟩ := (mem_innerVer g x y).1 h1
  obtain ⟨_, h | h⟩ := (mem_outerVer g.W g.H _ y).1 h2 <;> omega

theorem levelOf_hor_nodup (g : Grid) (hg : g.WellFormed) : (levelOf g).hor_walls.Nodup := by
  obtain ⟨hW, hH, _⟩ := hg
  refine List.nodup_append.2 ⟨innerHor_nodup g, outerHor_nodup g.W g.H hH, ?_⟩
  rintro ⟨x, y⟩ h1 h2
  obtain ⟨r, hr, _, _, rfl⟩ := (mem_innerHor g x y).1 h1
  obtain ⟨_, h | h⟩ := (mem_outerHor g.W g.H x _).1 h2 <;> omega

/-! ## The last marker in reading order -/

theorem filter_range_last (p : Nat → Bool) (n c : Nat) (hc : c < n) (hp : p c = true)
    (hmax : ∀ c1, c1 < n → p c1 = true → c1 ≤ c) :
    ∃ pre, (List.range n).filter p = pre ++ [c] := by
  have e : n = (c + 1) + (n - c - 1) := by omega
  refine ⟨(List.range c).filter p, ?_⟩
  rw [e, List.range_add, List.filter_append, List.range_succ, List.filter_append]
  have h2 : List.filter p (List.map (fun x => c + 1 + x) (List.range (n - c - 1))) = [] := by
    rw [List.filter_eq_nil_iff]
    intro a ha hpa
    obtain ⟨x, hx, rfl⟩ := List.mem_map.1 ha
    have := hmax (c + 1 + x) (by have := List.mem_range.1 hx; omega) hpa
    omega
  rw [h2]
  simp [hp]

theorem flatMap_range_last {β : Type} (f : Nat → List β) (n r : Nat) (hr : r < n)
    (hzero : ∀ r1, r < r1 → r1 < n → f r1 = []) :
    (List.range n).flatMap f = (List.range r).flatMap f ++ f r := by
  have e : n = (r + 1) + (n - r - 1) := by omega
  rw [e, List.range_add, List.flatMap_append, List.range_succ, List.flatMap_append]
  have h2 : (List.map (fun x => r + 1 + x) (List.range (n - r - 1))).flatMap f = [] := by
    rw [List.flatMap_eq_nil_iff]
    intro a ha
    obtain ⟨x, hx, rfl⟩ := List.mem_map.1 ha
    exact hzero _ (by omega) (by have := List.mem_range.1 hx; omega)
  rw [h2]
  simp

/-- The last entry of the list of the cells that hold `ch`. -/
theorem marks_last (g : Grid) (ch : Char) (r c : Nat) (hr : r < g.H) (hc : c < g.W)
    (hch : g.cell r c = ch)
    (hlast : ∀ r1 c1, r1 < g.H → c1 < g.W → g.cell r1 c1 = ch → r1 < r ∨ (r1 = r ∧ c1 ≤ c)) :
    (marks g ch).getLast? = some (c, g.H - 1 - r) := by
  have h1 : marks g ch = (List.range r).flatMap (rowMarks g ch) ++ rowMarks g ch r := by
    apply flatMap_range_last _ _ _ hr
    intro r1 h1 h2
    simp only [rowMarks, List.map_eq_nil_iff, List.filter_eq_nil_iff, List.mem_range,
      decide_eq_true_eq]
    intro c1 hc1 hcell
    have := hlast r1 c1 h2 hc1 hcell
    omega
  obtain ⟨pre, h2⟩ := filter_range_last (fun c1 => decide (g.cell r c1 = ch)) g.W c hc
    (by simp [hch]) (by
      intro c1 hc1 hp
      have := hlast r c1 hr hc1 (by simpa using hp)
      omega)
  rw [h1, rowMarks, h2, List.map_append, ← List.append_assoc]
  exact List.getLast?_concat _

theorem marks_nil (g : Grid) (ch : Char)
    (hno : ∀ r c, r < g.H → c < g.W → g.cell r c ≠ ch) : marks g ch = [] := by
  simp only [marks, rowMarks, List.flatMap_eq_nil_iff, List.map_eq_nil_iff,
    List.filter_eq_nil_iff, List.mem_range, decide_eq_true_eq]
  intro r hr c hc
  exact hno r c hr hc

/-! ## The first-line loop and the end of the input -/

/-- Any two bounds above the number of unread bytes give the same result. -/
theorem firstLine_bound_irrelevant :
    ∀ (fuel1 fuel2 w : Nat) (lv : LevelDesc) (s : List Char), s.length < fuel1 →
      s.length < fuel2 → firstLine fuel1 w lv s = firstLine fuel2 w lv s := by
  intro fuel1
  induction fuel1 with
  | zero => intro fuel2 w lv s h; omega
  | succ k1 ih =>
    intro fuel2 w lv s h1 h2
    obtain ⟨k2, rfl⟩ : ∃ k2, fuel2 = k2 + 1 := ⟨fuel2 - 1, by omega⟩
    rcases s with _ | ⟨a, _ | ⟨b, _ | ⟨c, _ | ⟨d, s⟩⟩⟩⟩
    · simp [firstLine]
    · by_cases ha : a = '+' <;> simp [firstLine, ha]
    · by_cases ha : a = '+' <;> by_cases hb : b = '-' <;> by_cases hb2 : b = '\n' <;>
        simp [firstLine, ha, hb, hb2]
    · by_cases ha : a = '+' <;> by_cases hb : b = '-' <;> by_cases hb2 : b = '\n' <;>
        by_cases hc : c = '-' <;> simp [firstLine, ha, hb, hb2, hc]
    · have hi := ih k2 (w + 1) lv s (by simp at h1; omega) (by simp at h2; omega)
      by_cases ha : a = '+' <;> by_cases hb : b = '-' <;> by_cases hb2 : b = '\n' <;>
        by_cases hc : c = '-' <;> by_cases hd : d = '-' <;>
        simp [firstLine, ha, hb, hb2, hc, hd, hi]

/-- The first-line loop records nothing: when it fails, the level is as it was. -/
theorem firstLine_invalid_level :
    ∀ (fuel w : Nat) (lv lv1 : LevelDesc) (s : List Char),
      firstLine fuel w lv s = .invalid lv1 → lv1 = lv := by
  intro fuel
  induction fuel with
  | zero => intro w lv lv1 s h; simp [firstLine] at h
  | succ k ih =>
    intro w lv lv1 s h
    rcases s with _ | ⟨a, _ | ⟨b, _ | ⟨c, _ | ⟨d, s⟩⟩⟩⟩
    · simp [firstLine] at h
      exact h.symm
    · by_cases ha : a = '+' <;> simp [firstLine, ha] at h <;> exact h.symm
    · by_cases ha : a = '+' <;> by_cases hb : b = '-' <;> by_cases hb2 : b = '\n' <;>
        simp [firstLine, ha, hb, hb2] at h <;> exact h.symm
    · by_cases ha : a = '+' <;> by_cases hb : b = '-' <;> by_cases hb2 : b = '\n' <;>
        by_cases hc : c = '-' <;> simp [firstLine, ha, hb, hb2, hc] at h <;> exact h.symm
    · by_cases ha : a = '+' <;> by_cases hb : b = '-' <;> by_cases hb2 : b = '\n' <;>
        by_cases hc : c = '-' <;> by_cases hd : d = '-' <;>
        simp [firstLine, ha, hb, hb2, hc, hd] at h <;>
        first
          | exact h.symm
          | exact ih (w + 1) lv lv1 s h

theorem firstLine_ok_newline {fuel w : Nat} {lv lv1 : LevelDesc} {s s1 : List Char} {a : Nat}
    (h : firstLine fuel w lv s = .ok a lv1 s1) : '\n' ∈ s := by
  obtain ⟨n, _, rfl⟩ := firstLine_inv _ _ h
  simp

/-- An input whose first line is not accepted is rejected with the level untouched. -/
theorem ReadLevelDesc_firstLine_invalid (t : List Char) (lv1 : LevelDesc)
    (h : firstLine (t.length + 1) 0 LevelDesc.init t = .invalid lv1) :
    ReadLevelDesc (some t) = .invalidFormat LevelDesc.init := by
  have e := firstLine_invalid_level _ _ _ _ _ h
  subst e
  simp only [ReadLevelDesc, readBody, bind_run, h]

theorem ReadLevelDesc_no_newline (t : List Char) (hn : '\n' ∉ t) :
    ReadLevelDesc (some t) = .invalidFormat LevelDesc.init := by
  cases h : firstLine (t.length + 1) 0 LevelDesc.init t with
  | ok a lv1 s1 => exact absurd (firstLine_ok_newline h) hn
  | invalid lv1 => exact ReadLevelDesc_firstLine_invalid t lv1 h
  | outOfFuel => exact absurd h (firstLine_fuel _ _ _ _ (by omega))

/-! ## The level returned with a failure -/

theorem inferredHeight_extra (H W k : Nat) (hk : k < 2 * (4 * W + 2)) :
    inferredHeight ((2 * H + 1) * (4 * W + 2) + k) W = H := by
  unfold inferredHeight
  have e : W * 4 + 2 = 4 * W + 2 := by omega
  rw [e]
  have h1 : 2 * H + 1 ≤ ((2 * H + 1) * (4 * W + 2) + k) / (4 * W + 2) :=
    (Nat.le_div_iff_mul_le (by omega)).2 (by omega)
  have h2 : ((2 * H + 1) * (4 * W + 2) + k) / (4 * W + 2) < 2 * H + 3 := by
    rw [Nat.div_lt_iff_lt_mul (by omega)]
    have e2 : (2 * H + 3) * (4 * W + 2) = (2 * H + 1) * (4 * W + 2) + 2 * (4 * W + 2) := by
      ring
    omega
  omega

theorem inferredHeight_many (H W k : Nat) (hk : 2 * (4 * W + 2) ≤ k) :
    H + 1 ≤ inferredHeight ((2 * H + 1) * (4 * W + 2) + k) W := by
  unfold inferredHeight
  have e : W * 4 + 2 = 4 * W + 2 := by omega
  rw [e]
  have h1 : 2 * H + 3 ≤ ((2 * H + 1) * (4 * W + 2) + k) / (4 * W + 2) := by
    rw [Nat.le_div_iff_mul_le (by omega)]
    have e2 : (2 * H + 3) * (4 * W + 2) = (2 * H + 1) * (4 * W + 2) + 2 * (4 * W + 2) := by
      ring
    omega
  omega

/-- Fewer than `2*(4*W+2)` bytes after a well-formed text are never read. -/
theorem ReadLevelDesc_extra (g : Grid) (hg : g.WellFormed) (extra : List Char)
    (hk : extra.length < 2 * (4 * g.W + 2)) :
    ReadLevelDesc (some (render g ++ extra)) = .returned (levelOf g) := by
  have e : render g ++ extra = renderBody g ++ ('\n' :: extra) := by simp [render]
  rw [e]
  apply ReadLevelDesc_body g hg
  rw [← e, List.length_append, render_length g hg.1 hg.2.1]
  exact inferredHeight_extra g.H g.W _ hk

theorem cellLine_start (g : Grid) (r : Nat) : ∃ u, cellLine g r = '|' :: u :=
  ⟨_, by simp [cellLine]; rfl⟩

/-- Cell row `r` of a text starts, with `|`, after the border line and `r` pairs of rows. -/
theorem renderBody_row_start (g : Grid) (hW : 1 ≤ g.W) (r : Nat) (hr : r < g.H)
    (rest : List Char) :
    ∃ pre u, renderBody g ++ rest = pre ++ '|' :: u ∧
      pre.length = (4 * g.W + 2) + r * (2 * (4 * g.W + 2)) := by
  have hlen : (borderLine g.W ++ ['\n'] ++ (List.range r).flatMap (rowPair g)).length
      = (4 * g.W + 2) + r * (2 * (4 * g.W + 2)) := by
    rw [List.length_append, flatMap_length_const _ _ _ (fun a _ => rowPair_length g a hW),
      List.length_range]
    simp [borderLine_length]
  by_cases hr1 : r = g.H - 1
  · subst hr1
    obtain ⟨u, hu⟩ := cellLine_start g (g.H - 1)
    refine ⟨borderLine g.W ++ ['\n'] ++ (List.range (g.H - 1)).flatMap (rowPair g),
      u ++ ['\n'] ++ borderLine g.W ++ rest, ?_, hlen⟩
    simp only [renderBody, hu, List.append_assoc, List.cons_append]
  · obtain ⟨m, hm⟩ : ∃ m, g.H - 1 = r + (m + 1) := ⟨g.H - 1 - r - 1, by omega⟩
    obtain ⟨u, hu⟩ := cellLine_start g r
    refine ⟨borderLine g.W ++ ['\n'] ++ (List.range r).flatMap (rowPair g),
      u ++ ['\n'] ++ wallLine g r ++ ['\n']
        ++ (List.map (fun x => r + x) (List.map Nat.succ (List.range m))).flatMap (rowPair g)
        ++ cellLine g (g.H - 1) ++ ['\n'] ++ borderLine g.W ++ rest, ?_, hlen⟩
    rw [renderBody, hm, List.range_add, List.range_succ_eq_map, List.map_cons,
      List.flatMap_append, List.flatMap_cons, Nat.add_zero, rowPair, hu]
    simp only [List.append_assoc, List.cons_append]

theorem crlf_segs (n : Nat) :
    crlf ((List.replicate n ['+', '-', '-', '-']).flatten)
      = (List.replicate n ['+', '-', '-', '-']).flatten := by
  induction n with
  | zero => rfl
  | succ n ih =>
    unfold crlf at ih ⊢
    rw [List.replicate_succ, List.flatten_cons, List.flatMap_append, ih]
    rfl

theorem firstLine_bad :
    ∀ (n fuel w : Nat) (lv : LevelDesc) (c : Char) (s : List Char), n < fuel →
      c ≠ '-' → c ≠ '\n' →
      firstLine fuel w lv ((List.replicate n ['+', '-', '-', '-']).flatten ++ '+' :: c :: s)
        = .invalid lv := by
  intro n
  induction n with
  | zero =>
    intro fuel w lv c s hf h1 h2
    obtain ⟨k, rfl⟩ : ∃ k, fuel = k + 1 := ⟨fuel - 1, by omega⟩
    simp [firstLine, h1, h2]
  | succ n ih =>
    intro fuel w lv c s hf h1 h2
    obtain ⟨k, rfl⟩ : ∃ k, fuel = k + 1 := ⟨fuel - 1, by omega⟩
    have hi := ih k (w + 1) lv c s (by omega) h1 h2
    simp only [List.replicate_succ, List.flatten_cons, List.cons_append, List.nil_append,
      firstLine, bind_run, EXPECT_CHAR_cons, get_cons, if_true, ite_run, hi]

/-- A well-formed text with carriage returns before its newlines is rejected in its first
line. -/
theorem ReadLevelDesc_crlf (g : Grid) :
    ReadLevelDesc (some (crlf (render g))) = .invalidFormat LevelDesc.init := by
  obtain ⟨u, hu⟩ := renderBody_start g ['\n']
  have e : crlf (render g)
      = (List.replicate g.W ['+', '-', '-', '-']).flatten ++ '+' :: '\r' :: ('\n' :: crlf ('|' :: u)) := by
    have e1 : render g = renderBody g ++ ['\n'] := rfl
    rw [e1, hu]
    have e2 : ∀ a b : List Char, crlf (a ++ b) = crlf a ++ crlf b := by
      intro a b
      simp [crlf]
    have e3 : ∀ x : List Char, crlf ('+' :: '\n' :: x) = '+' :: '\r' :: '\n' :: crlf x := by
      intro x
      simp [crlf]
    rw [e2, crlf_segs, e3]
  have hlen : g.W < (crlf (render g)).length + 1 := by
    rw [e]
    simp only [List.length_append, segs_length, List.length_cons]
    omega
  have h := firstLine_bad g.W ((crlf (render g)).length + 1) 0 LevelDesc.init '\r'
    ('\n' :: crlf ('|' :: u)) hlen (by decide) (by decide)
  rw [← e] at h
  exact ReadLevelDesc_firstLine_invalid _ _ h

/-- Bytes after a well-formed text, `2*(4*W+2)` or more, the first of them none of which is
`|`, make the reader look for a further row and fail. -/
theorem ReadLevelDesc_many_extra (g : Grid) (hg : g.WellFormed) (extra : List Char)
    (hk : 2 * (4 * g.W + 2) ≤ extra.length) (hbar : '|' ∉ extra) :
    ∃ lv, ReadLevelDesc (some (render g ++ extra)) = .invalidFormat lv := by
  rcases ReadLevelDesc_cases (render g ++ extra) with ⟨lv, h⟩ | h
  · exfalso
    obtain ⟨g2, rest, hg2, ht, hs, _⟩ := ReadLevelDesc_returned h
    have e : render g ++ extra = renderBody g ++ ('\n' :: extra) := by simp [render]
    obtain ⟨u, hu⟩ := renderBody_start g ('\n' :: extra)
    obtain ⟨u2, hu2⟩ := renderBody_start g2 rest
    have hW : g.W = g2.W := by
      apply firstLine_unique g.W g2.W
        ((List.replicate g.W ['+', '-', '-', '-']).flatten ++ '+' :: '\n' :: '|' :: u).length
        ' ' u u2
      rw [List.set_eq_of_length_le (le_refl _), ← hu, ← hu2, ← e, ht]
    have hlen := render_length g hg.1 hg.2.1
    have hH : g.H + 1 ≤ g2.H := by
      rw [← hs, List.length_append, hlen, ← hW]
      exact inferredHeight_many g.H g.W _ hk
    obtain ⟨pre, v, hpre, hprelen⟩ := renderBody_row_start g2 hg2.1 g.H (by omega) rest
    rw [hpre] at ht
    have hl : (render g).length = pre.length := by
      rw [hlen, hprelen, ← hW]
      ring
    have := (List.append_inj ht hl).2
    exact hbar (by rw [this]; simp)
  · exact h

/-! ## A text without the newline after its bottom border -/

theorem returned_dims_pos (t : List Char) (lv : LevelDesc) (w h : Nat)
    (hret : ReadLevelDesc (some t) = .returned lv) (hw : lv.w = some w) (hh : lv.h = some h) :
    1 ≤ w ∧ 1 ≤ h := by
  obtain ⟨g, rest, hg, _, _, rfl⟩ := ReadLevelDesc_returned hret
  simp only [levelOf, Option.some.injEq] at hw hh
  subst hw hh
  exact ⟨hg.1, hg.2.1⟩

theorem inferredHeight_short (H W : Nat) (hH : 1 ≤ H) :
    inferredHeight ((2 * H + 1) * (4 * W + 2) - 1) W = H - 1 := by
  unfold inferredHeight
  have e : W * 4 + 2 = 4 * W + 2 := by omega
  rw [e]
  have e2 : (2 * H + 1) * (4 * W + 2) = 2 * H * (4 * W + 2) + (4 * W + 2) := by ring
  have h1 : 2 * H ≤ ((2 * H + 1) * (4 * W + 2) - 1) / (4 * W + 2) :=
    (Nat.le_div_iff_mul_le (by omega)).2 (by omega)
  have h2 : ((2 * H + 1) * (4 * W + 2) - 1) / (4 * W + 2) < 2 * H + 1 := by
    rw [Nat.div_lt_iff_lt_mul (by omega)]
    have : 0 < (2 * H + 1) * (4 * W + 2) := Nat.mul_pos (by omega) (by omega)
    omega
  omega

/-- Without the newline after the bottom border the file size gives a height one less
than the number of rows: the text is rejected, or read as a level of one row less. -/
theorem ReadLevelDesc_no_final_newline (g : Grid) (hg : g.WellFormed) :
    (∃ lv, ReadLevelDesc (some (renderBody g)) = .invalidFormat lv) ∨
    (∃ lv, ReadLevelDesc (some (renderBody g)) = .returned lv ∧ lv.w = some g.W ∧
      lv.h = some (g.H - 1)) := by
  rcases ReadLevelDesc_cases (renderBody g) with ⟨lv, h⟩ | h
  · right
    obtain ⟨g2, rest, hg2, ht, hs, rfl⟩ := ReadLevelDesc_returned h
    obtain ⟨u, hu⟩ := renderBody_start g []
    obtain ⟨u2, hu2⟩ := renderBody_start g2 rest
    rw [List.append_nil] at hu
    have hW : g.W = g2.W := by
      apply firstLine_unique g.W g2.W
        ((List.replicate g.W ['+', '-', '-', '-']).flatten ++ '+' :: '\n' :: '|' :: u).length
        ' ' u u2
      rw [List.set_eq_of_length_le (le_refl _), ← hu, ← hu2, ← ht]
    have hlen := renderBody_length g hg.1 hg.2.1
    have hH : g2.H = g.H - 1 := by
      rw [← hs, ← hW]
      have e : (renderBody g).length = (2 * g.H + 1) * (4 * g.W + 2) - 1 := by omega
      rw [e]
      exact inferredHeight_short g.H g.W hg.2.1
    exact ⟨levelOf g2, h, by simp [levelOf, hW], by simp [levelOf, hH]⟩
  · exact Or.inl h

/-- A well-formed text of one row is rejected without the newline after its bottom
border. -/
theorem ReadLevelDesc_no_final_newline_one (g : Grid) (hg : g.WellFormed) (hH : g.H = 1) :
    ∃ lv, ReadLevelDesc (some (renderBody g)) = .invalidFormat lv := by
  rcases ReadLevelDesc_no_final_newline g hg with h | ⟨lv, h, hw, hh⟩
  · exact h
  · exfalso
    have h13 := returned_dims_pos (renderBody g) lv g.W (g.H - 1) h hw hh
    omega

/-! ## The height with machine integers -/

/-- Below `2^31` bytes the height of line 76 computed with machine integers passes the test
`h < 1` exactly when the height computed with natural numbers does, and is equal to it when
it passes. -/
theorem machineHeight_eq (filesize w : Nat) (hsize : filesize < 2 ^ 31) :
    (machineHeight filesize w < 1 ↔ inferredHeight filesize w < 1) ∧
    (1 ≤ inferredHeight filesize w → machineHeight filesize w = (inferredHeight filesize w : Int)) := by
  have hq : filesize / (w * 4 + 2) ≤ filesize := Nat.div_le_self _ _
  have hsize2 : filesize < 2147483648 := by simpa using hsize
  unfold machineHeight inferredHeight
  simp only [show (2 : Nat) ^ 64 = 18446744073709551616 by norm_num,
    show (2 : Nat) ^ 32 = 4294967296 by norm_num, show (2 : Nat) ^ 31 = 2147483648 by norm_num,
    show (2 : Int) ^ 32 = 4294967296 by norm_num]
  generalize filesize / (w * 4 + 2) = q at hq ⊢
  rcases Nat.eq_zero_or_pos q with h0 | hpos
  · subst h0
    refine ⟨by decide, by decide⟩
  · have e1 : (q + 18446744073709551616 - 1) % 18446744073709551616 = q - 1 := by omega
    have e2 : (q - 1) / 2 % 4294967296 = (q - 1) / 2 := by omega
    have e3 : (q - 1) / 2 < 2147483648 := by omega
    simp only [e1, e2, e3, if_true]
    constructor
    · constructor <;> intro h <;> omega
    · intro _
      trivial

/-- Far above `2^31` bytes the two heights differ: for a file of 51539607582 bytes with a
first line of one segment the natural-number height is `2^32 + 2` and the `int` is 2. This
is why the statements on bytes after the bottom border are for files below `2^31` bytes. -/
theorem machineHeight_large :
    inferredHeight 51539607582 1 = 4294967298 ∧ machineHeight 51539607582 1 = 2 := by
  constructor
  · decide
  · decide

/-! ## The level returned when a marker is rejected -/

theorem demoGrid_wf : demoGrid.WellFormed := by decide

theorem demoGrid_render : render demoGrid = demoText := by decide

theorem minimalGrid_wf : minimalGrid.WellFormed := by decide

theorem minimalGrid_render : render minimalGrid = minimalText := by decide

theorem demoText_set :
    (render demoGrid).set 34 ' '
      = "+---+---+---+\n|     h | n |\n+   +- -+   +\n| e |     h |\n+---+---+---+\n".toList := by
  decide

/-! ## The properties of the specification -/

/-- C1: for every well-formed level text of `W ≥ 1` columns and `H ≥ 1` rows,
`ReadLevelDesc` succeeds and returns `w = W` and `h = H`, and `H` is the value of
`(fileSize / (w*4+2) - 1) / 2` in integer division. -/
theorem C1_dimensions (g : Grid) (hg : g.WellFormed) :
    ∃ lv, ReadLevelDesc (some (render g)) = .returned lv ∧ lv.w = some g.W ∧ lv.h = some g.H ∧
      ((render g).length / (g.W * 4 + 2) - 1) / 2 = g.H :=
  ⟨levelOf g, ReadLevelDesc_render g hg, rfl, rfl, inferredHeight_render g hg.1 hg.2.1⟩

/-- The drawing and its text used to illustrate C1. -/
theorem C1_dimensions_witness :
    demoGrid.WellFormed ∧ render demoGrid = demoText ∧
    ∃ lv, ReadLevelDesc (some (render demoGrid)) = .returned lv ∧ lv.w = some demoGrid.W ∧
      lv.h = some demoGrid.H ∧
      ((render demoGrid).length / (demoGrid.W * 4 + 2) - 1) / 2 = demoGrid.H :=
  ⟨demoGrid_wf, demoGrid_render, C1_dimensions demoGrid (by decide)⟩

/-- C2: on every input that `ReadLevelDesc` accepts with width `w` and height `h`,
`hor_walls` holds `(x,0)` and `(x,h)` for every `x < w` and `ver_walls` holds `(0,y)` and
`(w,y)` for every `y < h`. -/
theorem C2_borders (t : List Char) (lv : LevelDesc) (w h : Nat)
    (hret : ReadLevelDesc (some t) = .returned lv) (hw : lv.w = some w) (hh : lv.h = some h) :
    (∀ x, x < w → (x, 0) ∈ lv.hor_walls ∧ (x, h) ∈ lv.hor_walls) ∧
    (∀ y, y < h → (0, y) ∈ lv.ver_walls ∧ (w, y) ∈ lv.ver_walls) := by
  obtain ⟨g, rest, _, _, _, rfl⟩ := ReadLevelDesc_returned hret
  simp only [levelOf, Option.some.injEq] at hw hh
  subst hw hh
  constructor
  · intro x hx
    exact ⟨List.mem_append_right _ ((mem_outerHor _ _ _ _).2 ⟨hx, Or.inl rfl⟩),
      List.mem_append_right _ ((mem_outerHor _ _ _ _).2 ⟨hx, Or.inr rfl⟩)⟩
  · intro y hy
    exact ⟨List.mem_append_right _ ((mem_outerVer _ _ _ _).2 ⟨hy, Or.inl rfl⟩),
      List.mem_append_right _ ((mem_outerVer _ _ _ _).2 ⟨hy, Or.inr rfl⟩)⟩

/-- The outer walls of the level read from `demoText`, of width 3 and height 2. -/
theorem C2_borders_witness :
    ReadLevelDesc (some demoText) = .returned (levelOf demoGrid) ∧
    (levelOf demoGrid).w = some 3 ∧ (levelOf demoGrid).h = some 2 ∧
    (∀ x, x < 3 → (x, 0) ∈ (levelOf demoGrid).hor_walls ∧ (x, 2) ∈ (levelOf demoGrid).hor_walls) ∧
    (∀ y, y < 2 → (0, y) ∈ (levelOf demoGrid).ver_walls ∧ (3, y) ∈ (levelOf demoGrid).ver_walls) :=
  ⟨by decide, rfl, rfl, C2_borders demoText (levelOf demoGrid) 3 2 (by decide) rfl rfl⟩

/-- C3: for every well-formed level text with exactly one `n` marker, in column `c` of
the `r`-th cell row from the top, `ReadLevelDesc` returns `player_pos = (c, H-1-r)`,
whatever the other cells hold. -/
theorem C3_player_pos (g : Grid) (hg : g.WellFormed) (r c : Nat) (hr : r < g.H) (hc : c < g.W)
    (hn : g.cell r c = 'n')
    (huniq : ∀ r1 c1, r1 < g.H → c1 < g.W → g.cell r1 c1 = 'n' → r1 = r ∧ c1 = c) :
    ∃ lv, ReadLevelDesc (some (render g)) = .returned lv ∧ lv.player_pos = (c, g.H - 1 - r) := by
  refine ⟨levelOf g, ReadLevelDesc_render g hg, ?_⟩
  have hmem : (c, g.H - 1 - r) ∈ marks g 'n' := (mem_marks g 'n' _ _).2 ⟨r, hr, hc, hn, rfl⟩
  have hne : marks g 'n' ≠ [] := List.ne_nil_of_mem hmem
  have hall : ∀ e ∈ marks g 'n', e = (c, g.H - 1 - r) := by
    rintro ⟨x, y⟩ he
    obtain ⟨r1, hr1, hx, hch, rfl⟩ := (mem_marks g 'n' x y).1 he
    obtain ⟨rfl, rfl⟩ := huniq r1 x hr1 hx hch
    rfl
  simp only [levelOf, List.getLast?_eq_getLast _ hne, Option.getD_some]
  exact hall _ (List.getLast_mem hne)

/-- The `n` of `demoText` is in column 2 of the top cell row, and the player is at (2,1). -/
theorem C3_player_pos_witness :
    demoGrid.WellFormed ∧ render demoGrid = demoText ∧ demoGrid.cell 0 2 = 'n' ∧
    ∃ lv, ReadLevelDesc (some (render demoGrid)) = .returned lv ∧
      lv.player_pos = (2, demoGrid.H - 1 - 0) :=
  ⟨demoGrid_wf, demoGrid_render, by decide,
    C3_player_pos demoGrid (by decide) 0 2 (by decide) (by decide) (by decide) (by
      intro r1 c1 h1 h2
      have h1 : r1 < 2 := h1
      have h2 : c1 < 3 := h2
      interval_cases r1 <;> interval_cases c1 <;> simp [demoGrid])⟩

/-- C4: for every well-formed level text and every marker position of its cell rows
(the byte at that index is the marker of the cell), replacing the marker byte by a byte
outside `n`, `h`, `e`, space makes `ReadLevelDesc` report an invalid format. -/
theorem C4_bad_marker (g : Grid) (hg : g.WellFormed) (r c : Nat) (hr : r < g.H) (hc : c < g.W)
    (b : Char) (hb : ¬ isMarker b) :
    (render g)[markerIndex g.W r c]? = some (g.cell r c) ∧
    ∃ lv, ReadLevelDesc (some ((render g).set (markerIndex g.W r c) b)) = .invalidFormat lv := by
  refine ⟨render_marker g hg.1 r c hr hc, ?_⟩
  rw [← render_setCell g hg.1 r c hr hc b]
  exact ReadLevelDesc_bad_marker (g.setCell r c b) hg.1 hg.2.1
    ⟨r, c, hr, hc, by simpa [Grid.setCell] using hb⟩

/-- In `demoText` the hammer of the top row, byte 20 of the text, is replaced by `x`. -/
theorem C4_bad_marker_witness :
    demoGrid.WellFormed ∧ render demoGrid = demoText ∧ markerIndex demoGrid.W 0 1 = 20 ∧
    (render demoGrid).set (markerIndex demoGrid.W 0 1) 'x'
      = "+---+---+---+\n|     x | n |\n+   +---+   +\n| e |     h |\n+---+---+---+\n".toList ∧
    (render demoGrid)[markerIndex demoGrid.W 0 1]? = some (demoGrid.cell 0 1) ∧
    ∃ lv, ReadLevelDesc (some ((render demoGrid).set (markerIndex demoGrid.W 0 1) 'x'))
      = .invalidFormat lv :=
  ⟨demoGrid_wf, demoGrid_render, by decide, by decide,
    C4_bad_marker demoGrid (by decide) 0 1 (by decide) (by decide) 'x' (by decide)⟩

/-- C5 fails as stated: replacing the newline of the bottom border of the minimal text by
`x` gives a text that is no level text, and `ReadLevelDesc` still accepts it. -/
theorem C5_counterexample :
    minimalGrid.WellFormed ∧ render minimalGrid = minimalText ∧
    minimalText.set 17 'x' = "+---+\n|   |\n+---+x".toList ∧
    (¬ ∃ g2 : Grid, g2.WellFormed ∧ g2.W = minimalGrid.W ∧ g2.H = minimalGrid.H ∧
      render g2 = (render minimalGrid).set 17 'x') ∧
    ReadLevelDesc (some ((render minimalGrid).set 17 'x')) = .returned (levelOf minimalGrid) := by
  refine ⟨minimalGrid_wf, minimalGrid_render, by decide, ?_, by decide⟩
  rintro ⟨g2, _, _, _, h⟩
  have h1 := congrArg List.getLast? h
  have h2 : ((render minimalGrid).set 17 'x').getLast? = some 'x' := by decide
  rw [h2] at h1
  simp [render] at h1

/-- C5 amended: for every well-formed level text and every byte of it other than the
newline that ends the bottom border, replacing that byte so that the text is no longer a
well-formed level text of the same size makes `ReadLevelDesc` report an invalid format. -/
theorem C5_structure (g : Grid) (hg : g.WellFormed) (p : Nat) (c : Char)
    (hp : p + 1 < (render g).length)
    (hbad : ¬ ∃ g2 : Grid, g2.WellFormed ∧ g2.W = g.W ∧ g2.H = g.H ∧
      render g2 = (render g).set p c) :
    ∃ lv, ReadLevelDesc (some ((render g).set p c)) = .invalidFormat lv := by
  rcases ReadLevelDesc_cases ((render g).set p c) with ⟨lv, h⟩ | h
  · exact absurd (set_accepted g hg p c hp lv h) hbad
  · exact h

/-- In `demoText` the middle dash of the `---` of the wall row is replaced by a space:
the wall row `+   +- -+   +` matches no pattern and the text is rejected. -/
theorem C5_structure_witness :
    demoGrid.WellFormed ∧ render demoGrid = demoText ∧ 34 + 1 < (render demoGrid).length ∧
    (render demoGrid).set 34 ' '
      = "+---+---+---+\n|     h | n |\n+   +- -+   +\n| e |     h |\n+---+---+---+\n".toList ∧
    ∃ lv, ReadLevelDesc (some ((render demoGrid).set 34 ' ')) = .invalidFormat lv :=
  ⟨demoGrid_wf, demoGrid_render, by decide, demoText_set,
    C5_structure demoGrid (by decide) 34 ' ' (by decide) (by
      rintro ⟨g2, _, hW, hH, h⟩
      have hW : g2.W = 3 := hW
      have hH : g2.H = 2 := hH
      rw [demoText_set] at h
      simp [render, renderBody, rowPair, cellLine, wallLine, cellText, wallText, borderLine,
        hW, hH, List.range_succ, List.replicate] at h
      cases hv : g2.hwall 0 1 <;> simp [hv] at h)⟩

/-- C6: on `+---+` / `| n |` / `+---+` the reader succeeds with `w = 1`, `h = 1`,
`player_pos = (0,0)`, `hor_walls` holding exactly (0,0) and (0,1), `ver_walls` holding
exactly (0,0) and (1,0), and no hammers or pumpkin homes. -/
theorem C6_example :
    ReadLevelDesc (some exampleText) = .returned
      { h := some 1, w := some 1, ver_walls := [(0, 0), (1, 0)], hor_walls := [(0, 0), (0, 1)],
        player_pos := (0, 0), hammers := [], pumpkin_home := [] } := by
  decide

/-- C7: the minimal 1x1 text without markers is read successfully and gives 4 walls in
all, 2 horizontal and 2 vertical, each of them an outer wall, no hammers, no pumpkin
homes and the default player position (0,0). -/
theorem C7_minimal :
    ∃ lv, ReadLevelDesc (some minimalText) = .returned lv ∧
      lv.hor_walls.length + lv.ver_walls.length = 4 ∧
      lv.hor_walls.length = 2 ∧ lv.ver_walls.length = 2 ∧
      (∀ e ∈ lv.hor_walls, e.1 < 1 ∧ (e.2 = 0 ∨ e.2 = 1)) ∧
      (∀ e ∈ lv.ver_walls, e.2 < 1 ∧ (e.1 = 0 ∨ e.1 = 1)) ∧
      lv.hammers = [] ∧ lv.pumpkin_home = [] ∧ lv.player_pos = LevelDesc.init.player_pos ∧
      lv.player_pos = (0, 0) :=
  ⟨{ h := some 1, w := some 1, ver_walls := [(0, 0), (1, 0)], hor_walls := [(0, 0), (0, 1)],
      player_pos := (0, 0), hammers := [], pumpkin_home := [] },
    by decide, by decide, by decide, by decide, by decide, by decide, rfl, rfl, rfl, rfl⟩

/-- C8 fails as stated: on `+---+---+` / `|   |   |` / `+---+---+` the list `ver_walls` is
the inner wall (1,0) and two outer walls, three entries and not five. -/
theorem C8_counterexample :
    ∃ lv, ReadLevelDesc (some twoCellText) = .returned lv ∧
      lv.ver_walls = [(1, 0), (0, 0), (2, 0)] ∧ lv.ver_walls.length ≠ 1 + 4 :=
  ⟨{ h := some 1, w := some 2, ver_walls := [(1, 0), (0, 0), (2, 0)],
      hor_walls := [(0, 0), (0, 1), (1, 0), (1, 1)],
      player_pos := (0, 0), hammers := [], pumpkin_home := [] },
    by decide, rfl, by decide⟩

/-- C8 amended: for every well-formed text of two columns and one row with a `|` between
the two cells, `ReadLevelDesc` succeeds and `ver_walls` is the inner wall (1,0) followed
by the two outer walls (0,0) and (2,0). -/
theorem C8_two_cells (g : Grid) (hg : g.WellFormed) (hW : g.W = 2) (hH : g.H = 1)
    (hv : g.vwall 0 0 = true) :
    ∃ lv, ReadLevelDesc (some (render g)) = .returned lv ∧
      lv.ver_walls = [(1, 0), (0, 0), (2, 0)] := by
  refine ⟨levelOf g, ReadLevelDesc_render g hg, ?_⟩
  simp [levelOf, innerVer, rowVer, outerVer, hW, hH, List.range_succ, hv]

/-- The text `twoCellText` is such a text. -/
theorem C8_two_cells_witness :
    twoCellGrid.WellFormed ∧ render twoCellGrid = twoCellText ∧
    ∃ lv, ReadLevelDesc (some (render twoCellGrid)) = .returned lv ∧
      lv.ver_walls = [(1, 0), (0, 0), (2, 0)] :=
  ⟨by decide, by decide, C8_two_cells twoCellGrid (by decide) rfl rfl rfl⟩

/-- C9: for every well-formed text, `(c+1, y)` with `c < W-1` is in `ver_walls` exactly when
the cell row of row index `y` has `|` after column `c`, and `(x, y)` with `1 ≤ y ≤ H-1` is
in `hor_walls` exactly when the wall row after the cell row of row index `y` has `---` at
column `x`; every entry of the two lists is such an inner wall or an outer wall, and the
lists have `2*H` and `2*W` entries more than there are inner `|` and `---`. -/
theorem C9_interior_walls (g : Grid) (hg : g.WellFormed) :
    ∃ lv, ReadLevelDesc (some (render g)) = .returned lv ∧
      (∀ c y, c + 1 < g.W → y < g.H →
        ((c + 1, y) ∈ lv.ver_walls ↔ g.vwall (g.H - 1 - y) c = true)) ∧
      (∀ x y, x < g.W → 1 ≤ y → y ≤ g.H - 1 →
        ((x, y) ∈ lv.hor_walls ↔ g.hwall (g.H - 1 - y) x = true)) ∧
      (∀ e ∈ lv.ver_walls,
        (∃ c y, c + 1 < g.W ∧ y < g.H ∧ g.vwall (g.H - 1 - y) c = true ∧ e = (c + 1, y)) ∨
        (e.2 < g.H ∧ (e.1 = 0 ∨ e.1 = g.W))) ∧
      (∀ e ∈ lv.hor_walls,
        (∃ x y, x < g.W ∧ 1 ≤ y ∧ y ≤ g.H - 1 ∧ g.hwall (g.H - 1 - y) x = true ∧ e = (x, y)) ∨
        (e.1 < g.W ∧ (e.2 = 0 ∨ e.2 = g.H))) ∧
      lv.ver_walls.length = 2 * g.H + countVer g ∧
      lv.hor_walls.length = 2 * g.W + countHor g := by
  refine ⟨levelOf g, ReadLevelDesc_render g hg, ?_, ?_, ?_, ?_, ?_, ?_⟩
  · intro c y hc hy
    simp only [levelOf, List.mem_append, mem_innerVer, mem_outerVer]
    constructor
    · rintro (⟨r, c1, hr, _, hv, hcc, rfl⟩ | ⟨_, h | h⟩)
      · have e1 : c1 = c := by omega
        have e2 : g.H - 1 - (g.H - 1 - r) = r := by omega
        rw [e2, ← e1]
        exact hv
      · omega
      · omega
    · intro hv
      exact Or.inl ⟨g.H - 1 - y, c, by omega, by omega, hv, rfl, by omega⟩
  · intro x y hx hy1 hy2
    simp only [levelOf, List.mem_append, mem_innerHor, mem_outerHor]
    constructor
    · rintro (⟨r, hr, _, hv, rfl⟩ | ⟨_, h | h⟩)
      · have e2 : g.H - 1 - (g.H - 1 - r) = r := by omega
        rw [e2]
        exact hv
      · omega
      · omega
    · intro hv
      exact Or.inl ⟨g.H - 1 - y, by omega, hx, hv, by omega⟩
  · rintro ⟨x, y⟩ he
    simp only [levelOf, List.mem_append, mem_innerVer, mem_outerVer] at he
    rcases he with ⟨r, c, hr, hc, hv, rfl, rfl⟩ | h
    · have e2 : g.H - 1 - (g.H - 1 - r) = r := by omega
      exact Or.inl ⟨c, g.H - 1 - r, by omega, by omega, by rw [e2]; exact hv, rfl⟩
    · exact Or.inr h
  · rintro ⟨x, y⟩ he
    simp only [levelOf, List.mem_append, mem_innerHor, mem_outerHor] at he
    rcases he with ⟨r, hr, hx, hv, rfl⟩ | h
    · have e2 : g.H - 1 - (g.H - 1 - r) = r := by omega
      exact Or.inl ⟨x, g.H - 1 - r, hx, by omega, by omega, by rw [e2]; exact hv, rfl⟩
    · exact Or.inr h
  · simp only [levelOf, List.length_append, innerVer_length, outerVer_length]
    omega
  · simp only [levelOf, List.length_append, innerHor_length, outerHor_length]
    omega

/-- In `demoText` the inner walls are the `|` after column 1 of the top cell row and after
column 0 of the bottom one, and the `---` at column 1 of the wall row. -/
theorem C9_interior_walls_witness :
    demoGrid.WellFormed ∧ render demoGrid = demoText ∧ countVer demoGrid = 2 ∧
    countHor demoGrid = 1 ∧
    ∃ lv, ReadLevelDesc (some (render demoGrid)) = .returned lv ∧
      (∀ c y, c + 1 < demoGrid.W → y < demoGrid.H →
        ((c + 1, y) ∈ lv.ver_walls ↔ demoGrid.vwall (demoGrid.H - 1 - y) c = true)) ∧
      (∀ x y, x < demoGrid.W → 1 ≤ y → y ≤ demoGrid.H - 1 →
        ((x, y) ∈ lv.hor_walls ↔ demoGrid.hwall (demoGrid.H - 1 - y) x = true)) ∧
      (∀ e ∈ lv.ver_walls,
        (∃ c y, c + 1 < demoGrid.W ∧ y < demoGrid.H ∧
          demoGrid.vwall (demoGrid.H - 1 - y) c = true ∧ e = (c + 1, y)) ∨
        (e.2 < demoGrid.H ∧ (e.1 = 0 ∨ e.1 = demoGrid.W))) ∧
      (∀ e ∈ lv.hor_walls,
        (∃ x y, x < demoGrid.W ∧ 1 ≤ y ∧ y ≤ demoGrid.H - 1 ∧
          demoGrid.hwall (demoGrid.H - 1 - y) x = true ∧ e = (x, y)) ∨
        (e.1 < demoGrid.W ∧ (e.2 = 0 ∨ e.2 = demoGrid.H))) ∧
      lv.ver_walls.length = 2 * demoGrid.H + countVer demoGrid ∧
      lv.hor_walls.length = 2 * demoGrid.W + countHor demoGrid :=
  ⟨demoGrid_wf, demoGrid_render, by decide, by decide, C9_interior_walls demoGrid (by decide)⟩

/-- C10: for every well-formed text, `hammers` is the list of the positions (column, row
index) of the `h` markers and `pumpkin_home` that of the `e` markers, both in reading order:
cell rows from the top down, left to right within a row. -/
theorem C10_markers (g : Grid) (hg : g.WellFormed) :
    ∃ lv, ReadLevelDesc (some (render g)) = .returned lv ∧
      lv.hammers = (List.range g.H).flatMap (fun r =>
        ((List.range g.W).filter (fun c => g.cell r c = 'h')).map (fun c => (c, g.H - 1 - r))) ∧
      lv.pumpkin_home = (List.range g.H).flatMap (fun r =>
        ((List.range g.W).filter (fun c => g.cell r c = 'e')).map (fun c => (c, g.H - 1 - r))) :=
  ⟨levelOf g, ReadLevelDesc_render g hg, rfl, rfl⟩

/-- In `demoText` the hammers are at (1,1) and (2,0) and the pumpkin home at (0,0). -/
theorem C10_markers_witness :
    demoGrid.WellFormed ∧ render demoGrid = demoText ∧
    (∃ lv, ReadLevelDesc (some (render demoGrid)) = .returned lv ∧
      lv.hammers = (List.range demoGrid.H).flatMap (fun r =>
        ((List.range demoGrid.W).filter (fun c => demoGrid.cell r c = 'h')).map
          (fun c => (c, demoGrid.H - 1 - r))) ∧
      lv.pumpkin_home = (List.range demoGrid.H).flatMap (fun r =>
        ((List.range demoGrid.W).filter (fun c => demoGrid.cell r c = 'e')).map
          (fun c => (c, demoGrid.H - 1 - r)))) ∧
    marks demoGrid 'h' = [(1, 1), (2, 0)] ∧ marks demoGrid 'e' = [(0, 0)] :=
  ⟨demoGrid_wf, demoGrid_render, C10_markers demoGrid (by decide), by decide, by decide⟩

/-- C11, evaluated: the minimal text without the newline after its bottom border is
rejected, while with the newline it is accepted; the two-row text `+---+` / `| h |` /
`+---+` / `| n |` / `+---+` without that newline is read as a level of one row, without
the player. -/
theorem C11_failing_input :
    renderBody minimalGrid = "+---+\n|   |\n+---+".toList ∧
    ReadLevelDesc (some (renderBody minimalGrid)) = .invalidFormat LevelDesc.init ∧
    ReadLevelDesc (some (renderBody minimalGrid ++ ['\n'])) = .returned (levelOf minimalGrid) ∧
    towerGrid.WellFormed ∧
    renderBody towerGrid = "+---+\n| h |\n+---+\n| n |\n+---+".toList ∧
    ReadLevelDesc (some (renderBody towerGrid ++ ['\n'])) = .returned
      { h := some 2, w := some 1, ver_walls := [(0, 0), (1, 0), (0, 1), (1, 1)],
        hor_walls := [(0, 1), (0, 0), (0, 2)], player_pos := (0, 0), hammers := [(0, 1)],
        pumpkin_home := [] } ∧
    ReadLevelDesc (some (renderBody towerGrid)) = .returned
      { h := some 1, w := some 1, ver_walls := [(0, 0), (1, 0)],
        hor_walls := [(0, 0), (0, 1)], player_pos := (0, 0), hammers := [(0, 0)],
        pumpkin_home := [] } := by
  refine ⟨by decide, by decide, by decide, by decide, by decide, by decide, by decide⟩

/-- C12 fails as stated: the minimal text followed by one space, or by a blank line, is
accepted, with the level of the minimal text. -/
theorem C12_counterexample :
    render minimalGrid = minimalText ∧
    ReadLevelDesc (some (minimalText ++ [' '])) = .returned (levelOf minimalGrid) ∧
    ReadLevelDesc (some (minimalText ++ ['\n'])) = .returned (levelOf minimalGrid) ∧
    ReadLevelDesc (some minimalText) = .returned (levelOf minimalGrid) := by
  refine ⟨by decide, by decide, by decide, by decide⟩

/-- C12 amended: for files below 2 GiB (`2^31` bytes, where the `int` of line 76 holds the
inferred height, `machineHeight_eq`) the format is byte-exact up to the closing `+` of the
bottom border. For every well-formed level text, replacing each newline by carriage return
and newline makes `ReadLevelDesc` report an invalid format, and so does appending
`2*(4*W+2)` or more space or newline bytes; fewer than `2*(4*W+2)` bytes appended after the
terminating newline are not read, and the level returned is the same. In each case the file
read is below `2^31` bytes. -/
theorem C12_byte_exact (g : Grid) (hg : g.WellFormed) :
    ((crlf (render g)).length < 2 ^ 31 →
      ReadLevelDesc (some (crlf (render g))) = .invalidFormat LevelDesc.init) ∧
    (∀ extra : List Char, (render g ++ extra).length < 2 ^ 31 →
      2 * (4 * g.W + 2) ≤ extra.length → (∀ c ∈ extra, c = ' ' ∨ c = '\n') →
      ∃ lv, ReadLevelDesc (some (render g ++ extra)) = .invalidFormat lv) ∧
    (∀ extra : List Char, (render g ++ extra).length < 2 ^ 31 →
      extra.length < 2 * (4 * g.W + 2) →
      ∃ lv, ReadLevelDesc (some (render g)) = .returned lv ∧
        ReadLevelDesc (some (render g ++ extra)) = .returned lv) := by
  refine ⟨fun _ => ReadLevelDesc_crlf g, ?_, ?_⟩
  · intro extra _ hk hsp
    apply ReadLevelDesc_many_extra g hg extra hk
    intro hbar
    rcases hsp '|' hbar with h | h <;> exact absurd h (by decide)
  · intro extra _ hk
    exact ⟨levelOf g, ReadLevelDesc_render g hg, ReadLevelDesc_extra g hg extra hk⟩

/-- The minimal text with carriage returns, and with twelve spaces after it (30 bytes), is
rejected; with eleven spaces after it (29 bytes), it is accepted. -/
theorem C12_byte_exact_witness :
    minimalGrid.WellFormed ∧ render minimalGrid = minimalText ∧
    crlf (render minimalGrid) = "+---+\r\n|   |\r\n+---+\r\n".toList ∧
    2 * (4 * minimalGrid.W + 2) = 12 ∧
    (render minimalGrid ++ List.replicate 12 ' ').length = 30 ∧
    ReadLevelDesc (some (crlf (render minimalGrid))) = .invalidFormat LevelDesc.init ∧
    (∃ lv, ReadLevelDesc (some (render minimalGrid ++ List.replicate 12 ' '))
      = .invalidFormat lv) ∧
    (∃ lv, ReadLevelDesc (some (render minimalGrid)) = .returned lv ∧
      ReadLevelDesc (some (render minimalGrid ++ List.replicate 11 ' ')) = .returned lv) :=
  ⟨by decide, by decide, by decide, by decide, by decide,
    (C12_byte_exact minimalGrid (by decide)).1 (by decide),
    (C12_byte_exact minimalGrid (by decide)).2.1 (List.replicate 12 ' ') (by decide)
      (by decide) (by decide),
    (C12_byte_exact minimalGrid (by decide)).2.2 (List.replicate 11 ' ') (by decide)
      (by decide)⟩

/-- C13: a first line without a `+---` segment, or a file size from which a height below
1 is inferred, makes `ReadLevelDesc` report an invalid format; so every level it returns
has `w ≥ 1` and `h ≥ 1`. -/
theorem C13_degenerate :
    (∀ (w : Nat) (s : List Char),
      (w < 1 ∨ (((borderLine w ++ '\n' :: s).length / (w * 4 + 2) - 1) / 2 < 1)) →
      ReadLevelDesc (some (borderLine w ++ '\n' :: s)) = .invalidFormat LevelDesc.init) ∧
    (∀ (t : List Char) (lv : LevelDesc) (w h : Nat),
      ReadLevelDesc (some t) = .returned lv → lv.w = some w → lv.h = some h → 1 ≤ w ∧ 1 ≤ h) := by
  refine ⟨fun w s hdeg => ReadLevelDesc_degenerate w s hdeg, ?_⟩
  intro t lv w h hret hw hh
  obtain ⟨g, rest, hg, _, _, rfl⟩ := ReadLevelDesc_returned hret
  simp only [levelOf, Option.some.injEq] at hw hh
  subst hw hh
  exact ⟨hg.1, hg.2.1⟩

/-- A first line `+` without segment, and a one-column text too short for one row, are
rejected; the level read from `demoText` has width 3 and height 2. -/
theorem C13_degenerate_witness :
    ReadLevelDesc (some "+\n|   |\n+\n".toList) = .invalidFormat LevelDesc.init ∧
    ReadLevelDesc (some "+---+\n| n |\n".toList) = .invalidFormat LevelDesc.init ∧
    (1 ≤ 3 ∧ 1 ≤ 2) :=
  ⟨C13_degenerate.1 0 "|   |\n+\n".toList (by decide),
    C13_degenerate.1 1 "| n |\n".toList (by decide),
    C13_degenerate.2 demoText (levelOf demoGrid) 3 2 (by decide) rfl rfl⟩

/-- C14: on every input that `ReadLevelDesc` accepts with width `w` and height `h`, every
entry `(x,y)` of `ver_walls` has `x ≤ w` and `y < h`, every entry of `hor_walls` has `x < w`
and `y ≤ h`, and every entry of `hammers` and `pumpkin_home`, and `player_pos`, has `x < w`
and `y < h` (coordinates are natural numbers, so `0 ≤ x` and `0 ≤ y`). -/
theorem C14_bounds (t : List Char) (lv : LevelDesc) (w h : Nat)
    (hret : ReadLevelDesc (some t) = .returned lv) (hw : lv.w = some w) (hh : lv.h = some h) :
    (∀ e ∈ lv.ver_walls, 0 ≤ e.1 ∧ e.1 ≤ w ∧ 0 ≤ e.2 ∧ e.2 < h) ∧
    (∀ e ∈ lv.hor_walls, 0 ≤ e.1 ∧ e.1 < w ∧ 0 ≤ e.2 ∧ e.2 ≤ h) ∧
    (∀ e ∈ lv.hammers, 0 ≤ e.1 ∧ e.1 < w ∧ 0 ≤ e.2 ∧ e.2 < h) ∧
    (∀ e ∈ lv.pumpkin_home, 0 ≤ e.1 ∧ e.1 < w ∧ 0 ≤ e.2 ∧ e.2 < h) ∧
    (0 ≤ lv.player_pos.1 ∧ lv.player_pos.1 < w ∧ 0 ≤ lv.player_pos.2 ∧ lv.player_pos.2 < h) := by
  obtain ⟨g, rest, hg, _, _, rfl⟩ := ReadLevelDesc_returned hret
  simp only [levelOf, Option.some.injEq] at hw hh
  subst hw hh
  refine ⟨?_, ?_, ?_, ?_, ?_⟩
  · intro e he
    have := levelOf_ver_bound g hg e he
    exact ⟨Nat.zero_le _, this.1, Nat.zero_le _, this.2⟩
  · intro e he
    have := levelOf_hor_bound g hg e he
    exact ⟨Nat.zero_le _, this.1, Nat.zero_le _, this.2⟩
  · intro e he
    have := marks_bound g hg 'h' e he
    exact ⟨Nat.zero_le _, this.1, Nat.zero_le _, this.2⟩
  · intro e he
    have := marks_bound g hg 'e' e he
    exact ⟨Nat.zero_le _, this.1, Nat.zero_le _, this.2⟩
  · have := levelOf_player_bound g hg
    exact ⟨Nat.zero_le _, this.1, Nat.zero_le _, this.2⟩

/-- The bounds on the level read from `demoText`, of width 3 and height 2. -/
theorem C14_bounds_witness :
    ReadLevelDesc (some demoText) = .returned (levelOf demoGrid) ∧
    (levelOf demoGrid).ver_walls = [(2, 1), (1, 0), (0, 0), (3, 0), (0, 1), (3, 1)] ∧
    (levelOf demoGrid).hor_walls = [(1, 1), (0, 0), (0, 2), (1, 0), (1, 2), (2, 0), (2, 2)] ∧
    (levelOf demoGrid).hammers = [(1, 1), (2, 0)] ∧
    (levelOf demoGrid).pumpkin_home = [(0, 0)] ∧ (levelOf demoGrid).player_pos = (2, 1) ∧
    (∀ e ∈ (levelOf demoGrid).ver_walls, 0 ≤ e.1 ∧ e.1 ≤ 3 ∧ 0 ≤ e.2 ∧ e.2 < 2) ∧
    (∀ e ∈ (levelOf demoGrid).hor_walls, 0 ≤ e.1 ∧ e.1 < 3 ∧ 0 ≤ e.2 ∧ e.2 ≤ 2) ∧
    (∀ e ∈ (levelOf demoGrid).hammers, 0 ≤ e.1 ∧ e.1 < 3 ∧ 0 ≤ e.2 ∧ e.2 < 2) ∧
    (∀ e ∈ (levelOf demoGrid).pumpkin_home, 0 ≤ e.1 ∧ e.1 < 3 ∧ 0 ≤ e.2 ∧ e.2 < 2) ∧
    (0 ≤ (levelOf demoGrid).player_pos.1 ∧ (levelOf demoGrid).player_pos.1 < 3 ∧
      0 ≤ (levelOf demoGrid).player_pos.2 ∧ (levelOf demoGrid).player_pos.2 < 2) :=
  ⟨by decide, by decide, by decide, by decide, by decide, by decide,
    C14_bounds demoText (levelOf demoGrid) 3 2 (by decide) rfl rfl⟩

/-- C15: on every input that `ReadLevelDesc` accepts, `ver_walls` holds no pair twice and
`hor_walls` holds no pair twice; in particular no outer wall repeats an inner wall. -/
theorem C15_no_duplicates (t : List Char) (lv : LevelDesc)
    (hret : ReadLevelDesc (some t) = .returned lv) :
    lv.ver_walls.Nodup ∧ lv.hor_walls.Nodup := by
  obtain ⟨g, rest, hg, _, _, rfl⟩ := ReadLevelDesc_returned hret
  exact ⟨levelOf_ver_nodup g hg, levelOf_hor_nodup g hg⟩

/-- The walls of the level read from `demoText`. -/
theorem C15_no_duplicates_witness :
    ReadLevelDesc (some demoText) = .returned (levelOf demoGrid) ∧
    (levelOf demoGrid).ver_walls = [(2, 1), (1, 0), (0, 0), (3, 0), (0, 1), (3, 1)] ∧
    (levelOf demoGrid).hor_walls = [(1, 1), (0, 0), (0, 2), (1, 0), (1, 2), (2, 0), (2, 2)] ∧
    (levelOf demoGrid).ver_walls.Nodup ∧ (levelOf demoGrid).hor_walls.Nodup :=
  ⟨by decide, by decide, by decide,
    C15_no_duplicates demoText (levelOf demoGrid) (by decide)⟩

/-- C16: the number of `n` markers is not checked. Every well-formed level text is
accepted, and `player_pos` is the position of the last `n` in reading order (no `n` in a
lower row of the text, none to its right in its row), however many `n` there are; without
any `n` it is `(0,0)`. -/
theorem C16_last_player (g : Grid) (hg : g.WellFormed) :
    ∃ lv, ReadLevelDesc (some (render g)) = .returned lv ∧
      (∀ r c, r < g.H → c < g.W → g.cell r c = 'n' →
        (∀ r1 c1, r1 < g.H → c1 < g.W → g.cell r1 c1 = 'n' → r1 < r ∨ (r1 = r ∧ c1 ≤ c)) →
        lv.player_pos = (c, g.H - 1 - r)) ∧
      ((∀ r c, r < g.H → c < g.W → g.cell r c ≠ 'n') → lv.player_pos = (0, 0)) := by
  refine ⟨levelOf g, ReadLevelDesc_render g hg, ?_, ?_⟩
  · intro r c hr hc hn hlast
    simp only [levelOf, marks_last g 'n' r c hr hc hn hlast, Option.getD_some]
  · intro hno
    simp only [levelOf, marks_nil g 'n' hno, List.getLast?_nil, Option.getD_none]

/-- In `threeText` there are three `n`; the last in reading order is in column 1 of the
bottom cell row, and the player is at (1,0). In `minimalText` there is none. -/
theorem C16_last_player_witness :
    threeGrid.WellFormed ∧ render threeGrid = threeText ∧
    marks threeGrid 'n' = [(0, 1), (1, 1), (1, 0)] ∧
    ReadLevelDesc (some threeText) = .returned (levelOf threeGrid) ∧
    (levelOf threeGrid).player_pos = (1, 0) ∧
    ReadLevelDesc (some minimalText) = .returned (levelOf minimalGrid) ∧
    (levelOf minimalGrid).player_pos = (0, 0) ∧
    ∃ lv, ReadLevelDesc (some (render threeGrid)) = .returned lv ∧
      (∀ r c, r < threeGrid.H → c < threeGrid.W → threeGrid.cell r c = 'n' →
        (∀ r1 c1, r1 < threeGrid.H → c1 < threeGrid.W → threeGrid.cell r1 c1 = 'n' →
          r1 < r ∨ (r1 = r ∧ c1 ≤ c)) →
        lv.player_pos = (c, threeGrid.H - 1 - r)) ∧
      ((∀ r c, r < threeGrid.H → c < threeGrid.W → threeGrid.cell r c ≠ 'n') →
        lv.player_pos = (0, 0)) :=
  ⟨by decide, by decide, by decide, by decide, by decide, by decide, by decide,
    C16_last_player threeGrid (by decide)⟩

/-- C18: on every input that `ReadLevelDesc` accepts with width `w` and height `h`, the
first `(2*h+1)*(4*w+2) - 1` bytes are the text, up to the closing `+` of the bottom border,
of a well-formed drawing of `w` columns and `h` rows, and the input has at least one byte
more. -/
theorem C18_accepted_prefix (t : List Char) (lv : LevelDesc) (w h : Nat)
    (hret : ReadLevelDesc (some t) = .returned lv) (hw : lv.w = some w) (hh : lv.h = some h) :
    ∃ g : Grid, g.WellFormed ∧ g.W = w ∧ g.H = h ∧
      t.take ((2 * h + 1) * (4 * w + 2) - 1) = renderBody g ∧
      (2 * h + 1) * (4 * w + 2) - 1 + 1 ≤ t.length := by
  obtain ⟨g, rest, hg, ht, hs, rfl⟩ := ReadLevelDesc_returned hret
  simp only [levelOf, Option.some.injEq] at hw hh
  subst hw hh
  have hlen := renderBody_length g hg.1 hg.2.1
  have hle := inferredHeight_le t.length g.W g.H hs hg.2.1
  refine ⟨g, hg, rfl, rfl, ?_, by omega⟩
  rw [ht, ← hlen, Nat.add_sub_cancel, List.take_left]

/-- The text `demoText` is accepted with width 3 and height 2: its first 69 bytes are the
body of `demoGrid` and it has 70 bytes. -/
theorem C18_accepted_prefix_witness :
    ReadLevelDesc (some demoText) = .returned (levelOf demoGrid) ∧ demoText.length = 70 ∧
    demoText.take 69 = renderBody demoGrid ∧
    ∃ g : Grid, g.WellFormed ∧ g.W = 3 ∧ g.H = 2 ∧
      demoText.take ((2 * 2 + 1) * (4 * 3 + 2) - 1) = renderBody g ∧
      (2 * 2 + 1) * (4 * 3 + 2) - 1 + 1 ≤ demoText.length :=
  ⟨by decide, by decide, by decide,
    C18_accepted_prefix demoText (levelOf demoGrid) 3 2 (by decide) rfl rfl⟩

/-- C19: `ReadLevelDesc` terminates on every input: it returns a level or reports an
invalid format, and the bound put on the first-line loop is immaterial. The empty input and
every input without a newline are rejected. End of input is a mismatch for every read: it
equals no expected character, is no marker and no wall choice. A level is only returned
when the input holds all the bytes up to the closing `+` of the bottom border. -/
theorem C19_terminates (t : List Char) :
    ((∃ lv, ReadLevelDesc (some t) = .returned lv) ∨
      (∃ lv, ReadLevelDesc (some t) = .invalidFormat lv)) ∧
    (∀ fuel w lv, t.length < fuel →
      firstLine fuel w lv t = firstLine (t.length + 1) w lv t ∧
      firstLine fuel w lv t ≠ .outOfFuel) ∧
    (t = [] → ReadLevelDesc (some t) = .invalidFormat LevelDesc.init) ∧
    ('\n' ∉ t → ReadLevelDesc (some t) = .invalidFormat LevelDesc.init) ∧
    (∀ c lv, EXPECT_CHAR c lv [] = .invalid lv) ∧
    (∀ x y lv, UseLetterLambda none x y lv [] = .ok false lv []) ∧
    (∀ x y lv, cellBody x y lv [] = .invalid lv) ∧
    (∀ x y lv, cellBody x y lv ['h', ' '] = .invalid (letterEffect 'h' x y lv)) ∧
    (∀ x y lv, wallBody x y lv ['+'] = .invalid lv) ∧
    (∀ lv w h, ReadLevelDesc (some t) = .returned lv → lv.w = some w → lv.h = some h →
      (2 * h + 1) * (4 * w + 2) - 1 ≤ t.length) := by
  refine ⟨ReadLevelDesc_cases t, ?_, ?_, ReadLevelDesc_no_newline t, ?_, ?_, ?_, ?_, ?_, ?_⟩
  · intro fuel w lv hf
    exact ⟨firstLine_bound_irrelevant fuel (t.length + 1) w lv t hf (by omega),
      firstLine_fuel fuel w lv t hf⟩
  · intro ht
    exact ReadLevelDesc_no_newline t (by simp [ht])
  · intro c lv
    simp
  · intro x y lv
    simp [UseLetterLambda_none]
  · intro x y lv
    simp [cellBody, UseLetterLambda_none]
  · intro x y lv
    have hm : isMarker 'h' := by decide
    simp [cellBody, UseLetterLambda_some, hm]
  · intro x y lv
    simp [wallBody]
  · intro lv w h hret hw hh
    obtain ⟨g, rest, hg, _, hs, rfl⟩ := ReadLevelDesc_returned hret
    simp only [levelOf, Option.some.injEq] at hw hh
    subst hw hh
    have := inferredHeight_le t.length g.W g.H hs hg.2.1
    omega

/-- The empty input, an input without newline and an input that stops in its first cell
row are rejected; `demoText` is accepted and has its 69 bytes up to the last `+`. -/
theorem C19_terminates_witness :
    ReadLevelDesc (some []) = .invalidFormat LevelDesc.init ∧
    ReadLevelDesc (some "+---+---+---+---".toList) = .invalidFormat LevelDesc.init ∧
    ReadLevelDesc (some "+---+\n| h".toList) = .invalidFormat LevelDesc.init ∧
    (2 * 2 + 1) * (4 * 3 + 2) - 1 ≤ demoText.length :=
  ⟨(C19_terminates []).2.2.1 rfl,
    (C19_terminates "+---+---+---+---".toList).2.2.2.1 (by decide),
    by decide,
    (C19_terminates demoText).2.2.2.2.2.2.2.2.2 (levelOf demoGrid) 3 2 (by decide) rfl rfl⟩

end Nikman
